import Mathlib

/-!
Shallow embedding of the k-means clustering core of bwtool
(src/lib/cluster.c).  Doubles are modelled as exact rationals
(`ℚ`); a matrix entry is `Option ℚ`, with `none` standing for NaN;
`DBL_MAX` is the exact rational value of the largest finite double.
The C `qsort` calls are modelled by a stable insertion sort over the
comparator's order (label-ascending); the do-while k-means loop is
modelled with explicit fuel, returning `none` when the fuel runs out
(the C loop has no iteration cap and may not terminate).
-/

/-- Matrix entry: a double, where `none` models NaN. -/
abbrev Val := Option ℚ

/-- Model of struct perBaseWig, keeping only the fields cluster.c reads or
writes: the mutable cluster label and the data row it points at, plus an
opaque identity for tracking rows across reorders. -/
structure PerBaseWig where
  id : Nat
  label : Int
  data : List Val
  deriving DecidableEq, Repr

/-- Default descriptor, used only as the out-of-range value of `List.getD`. -/
def wdef : PerBaseWig := ⟨0, 0, []⟩

/-- Model of struct perBaseMatrix: row count, column count, the row-pointer
array (matrix) and the descriptor array, as cluster.c uses them. -/
structure PerBaseMatrix where
  nrow : Nat
  ncol : Nat
  matrix : List (List Val)
  array : List PerBaseWig
  deriving DecidableEq, Repr

/-- A row contains an NA: the `isnan` test of clear_na_rows on some entry. -/
def hasNA (r : List Val) : Bool := r.any (fun v => v.isNone)

/-- Order induced by perBaseWigJustLabelCmp (cluster.c:76): compare the
label fields, ascending. -/
def labelLe (a b : PerBaseWig) : Prop := a.label ≤ b.label

instance : DecidableRel labelLe := fun a b => inferInstanceAs (Decidable (a.label ≤ b.label))

instance : IsTotal PerBaseWig labelLe := ⟨fun a b => Int.le_total a.label b.label⟩

instance : IsTrans PerBaseWig labelLe := ⟨fun _ _ _ h h' => Int.le_trans h h'⟩

/-- Model of the qsort calls of cluster.c (cluster.c:103 with
perBaseWigJustLabelCmp, cluster.c:222 with perBaseWigLabelCmp).
Modelled from the spec: perBaseWigLabelCmp itself is not under src/ (it
lives in bigs.c; only its caller is visible), and the spec mandates a
"stable-or-equivalent total order keyed only on label", so both sorts are
modelled as a stable insertion sort keyed on the label field. -/
def sortByLabel (l : List PerBaseWig) : List PerBaseWig :=
  List.insertionSort labelLe l

/-- Marking pass of clear_na_rows (cluster.c:91-102): a row with an NA gets
label -1; other rows are untouched. -/
def markNA (l : List PerBaseWig) : List PerBaseWig :=
  l.map (fun w => if hasNA w.data then { w with label := -1 } else w)

/-- clear_na_rows (cluster.c:85-107): mark NA rows with label -1, count
them, sort the descriptor array by label, and rebuild the row-pointer
array from the sorted descriptors.  Returns the new matrix and the NA
count. -/
def clear_na_rows (pbm : PerBaseMatrix) : PerBaseMatrix × Nat :=
  let arr := sortByLabel (markNA pbm.array)
  ({ pbm with array := arr, matrix := arr.map (fun w => w.data) },
   (pbm.array.filter (fun w => hasNA w.data)).length)

/-- Model of struct cluster_bed_matrix: the wrapped matrix, dimensions,
requested cluster count, NA count, and the centroids / cluster sizes
filled in by k_means. -/
structure ClusterBedMatrix where
  pbm : PerBaseMatrix
  m : Nat
  n : Nat
  k : Nat
  num_na : Nat
  centroids : List (List ℚ)
  cluster_sizes : List Nat
  deriving DecidableEq, Repr

/-- init_cbm_from_pbm (cluster.c:109-120): record dimensions and k, run
clear_na_rows, store the NA count.  The source performs no validation of
k whatsoever (the intended check survives only as a commented-out assert
at cluster.c:159), so construction is total. -/
def init_cbm_from_pbm (pbm : PerBaseMatrix) (k : Nat) : ClusterBedMatrix :=
  let r := clear_na_rows pbm
  { pbm := r.1, m := pbm.ncol, n := pbm.nrow, k := k, num_na := r.2,
    centroids := [], cluster_sizes := [] }

/-- Largest finite double, the exact value of DBL_MAX. -/
def dblMax : ℚ := (2 ^ 53 - 1) * 2 ^ 971

/-- Read a data row as rationals.  Active rows never contain `none`, so the
default 0 is never used on the rows k_means touches. -/
def rowQ (r : List Val) : List ℚ := r.map (fun v => v.getD 0)

/-- Squared euclidean distance of the inner loop at cluster.c:186-188. -/
def sqDist (a b : List ℚ) : ℚ := (List.zipWith (fun x y => (x - y) ^ 2) a b).sum

/-- Scan of cluster.c:183-194: running minimum over the centroids, index i
counting up, overwriting the best pair only on strictly smaller distance. -/
def closestAux (r : List ℚ) : Nat → Nat × ℚ → List (List ℚ) → Nat × ℚ
  | _, best, [] => best
  | i, best, c :: cs =>
      let d := sqDist r c
      closestAux r (i + 1) (if d < best.2 then (i, d) else best) cs

/-- Closest-centroid search for one row: label starts at 0 (AllocArray
zero-fills it) and min_distance starts at DBL_MAX, as at cluster.c:183. -/
def closest (cents : List (List ℚ)) (r : List ℚ) : Nat × ℚ :=
  closestAux r 0 (0, dblMax) cents

/-- In-place update of one array slot, as the C row `c1[labels[h]][j] += ...`
or `cluster_sizes[labels[h]]++` does; out-of-range indices leave the list
unchanged (in C they would be undefined behavior). -/
def modifyIdx {α : Type} (f : α → α) : Nat → List α → List α
  | _, [] => []
  | 0, x :: xs => f x :: xs
  | n + 1, x :: xs => x :: modifyIdx f n xs

/-- Accumulator of one pass over the active rows (cluster.c:180-201):
labels assigned so far (in row order), the temp centroid sums c1, the
cluster size counters and the running error. -/
structure IterAcc where
  labels : List Nat
  c1 : List (List ℚ)
  sizes : List Nat
  error : ℚ
  deriving DecidableEq, Repr

/-- Body of the per-row loop (cluster.c:180-201): find the closest
centroid, record the label, add the row into the destination cluster's
temp centroid, bump its size, add the minimal distance into the error. -/
def kIterStep (cents : List (List ℚ)) (acc : IterAcc) (r : List ℚ) : IterAcc :=
  let best := closest cents r
  { labels := acc.labels ++ [best.1]
    c1 := modifyIdx (fun c => List.zipWith (· + ·) c r) best.1 acc.c1
    sizes := modifyIdx (· + 1) best.1 acc.sizes
    error := acc.error + best.2 }

/-- One iteration of the main loop over all active rows, starting from the
cleared counters and temp centroids of cluster.c:174-179. -/
def kIter (k m : Nat) (cents : List (List ℚ)) (active : List (List ℚ)) : IterAcc :=
  active.foldl (kIterStep cents)
    ⟨[], List.replicate k (List.replicate m 0), List.replicate k 0, 0⟩

/-- Centroid update of cluster.c:202-208: mean of the assigned rows when
the cluster is non-empty, otherwise the (cleared) accumulator itself. -/
def updateCentroids (c1 : List (List ℚ)) (sizes : List Nat) : List (List ℚ) :=
  List.zipWith (fun c s => if s ≠ 0 then c.map (fun x => x / (s : ℚ)) else c) c1 sizes

/-- Result of the main loop: number of iterations executed, final labels,
centroids and cluster sizes. -/
structure KLoopOut where
  iters : Nat
  labels : List Nat
  centroids : List (List ℚ)
  sizes : List Nat
  deriving DecidableEq, Repr

/-- The do-while loop of cluster.c:168-209, with explicit fuel.  Each pass
runs one full iteration, updates the centroids, and loops again exactly
when |error - old_error| > t. -/
def kLoop (k m : Nat) (active : List (List ℚ)) (t : ℚ) :
    Nat → List (List ℚ) → ℚ → Option KLoopOut
  | 0, _, _ => none
  | fuel + 1, cents, oldError =>
      let a := kIter k m cents active
      let cents2 := updateCentroids a.c1 a.sizes
      if |a.error - oldError| > t then
        (kLoop k m active t fuel cents2 a.error).map
          (fun r => { r with iters := r.iters + 1 })
      else
        some ⟨1, a.labels, cents2, a.sizes⟩

/-- Seeding loop of cluster.c:161-166, kept in its h-accumulating loop
form: h starts at num_na and advances by the fixed stride after each
centroid is copied. -/
def seedLoop (mat : List (List Val)) (stride : Nat) : Nat → Nat → List (List ℚ)
  | _, 0 => []
  | h, i + 1 => rowQ (mat.getD h []) :: seedLoop mat stride (h + stride) i

/-- Initial centroids: k rows picked at stride (n - num_na) / k starting
from row num_na of the NA-filtered matrix. -/
def initCentroids (cbm : ClusterBedMatrix) : List (List ℚ) :=
  seedLoop cbm.pbm.matrix ((cbm.n - cbm.num_na) / cbm.k) cbm.num_na cbm.k

/-- Result of k_means proper: the label array of length n (entries below
num_na keep the zero AllocArray put there), plus centroids, sizes and the
iteration count. -/
structure KMeansOut where
  labels : List Int
  centroids : List (List ℚ)
  sizes : List Nat
  iters : Nat
  deriving DecidableEq, Repr

/-- Active rows of the matrix, the range h in [num_na, n) of the loops of
k_means, read as rationals. -/
def activeRows (cbm : ClusterBedMatrix) : List (List ℚ) :=
  (cbm.pbm.matrix.drop cbm.num_na).map rowQ

/-- k_means (cluster.c:139-213): seed the centroids, run the main loop on
the active rows, and return the labels (padded with the zeroes the
excluded-row slots keep in C). -/
def k_means (cbm : ClusterBedMatrix) (t : ℚ) (fuel : Nat) : Option KMeansOut :=
  match kLoop cbm.k cbm.m (activeRows cbm) t fuel (initCentroids cbm) dblMax with
  | none => none
  | some out =>
      some ⟨List.replicate cbm.num_na (0 : Int) ++ out.labels.map Int.ofNat,
            out.centroids, out.sizes, out.iters⟩

/-- Label write-back loop of do_kmeans (cluster.c:220-221): positions from
num_na up get the computed label; earlier positions are untouched. -/
def applyLabelsAux (num_na : Nat) (labels : List Int) : Nat → List PerBaseWig → List PerBaseWig
  | _, [] => []
  | i, w :: ws =>
      (if num_na ≤ i then { w with label := labels.getD i 0 } else w)
        :: applyLabelsAux num_na labels (i + 1) ws

/-- Label write-back over the whole descriptor array. -/
def applyLabels (num_na : Nat) (labels : List Int) (arr : List PerBaseWig) : List PerBaseWig :=
  applyLabelsAux num_na labels 0 arr

/-- do_kmeans (cluster.c:215-226): run k_means, copy the labels onto the
descriptors of the active rows, sort descriptors by label, and rebuild the
row-pointer array from the sorted descriptors. -/
def do_kmeans (cbm : ClusterBedMatrix) (t : ℚ) (fuel : Nat) : Option ClusterBedMatrix :=
  match k_means cbm t fuel with
  | none => none
  | some out =>
      let arr2 := sortByLabel (applyLabels cbm.num_na out.labels cbm.pbm.array)
      some { cbm with
              pbm := { cbm.pbm with array := arr2, matrix := arr2.map (fun w => w.data) },
              centroids := out.centroids, cluster_sizes := out.sizes }

/-- free_cbm (cluster.c:129-137): reads *pCbm and immediately dereferences
it (free_perBaseMatrix(&cbm->pbm)), so a NULL handle is undefined
behavior, modelled as `none`; the freez(&cbm) at cluster.c:136 clears only
the local variable, so on success the caller's handle keeps its old
(now dangling) value, which we return. -/
def free_cbm (pCbm : Option ClusterBedMatrix) : Option (Option ClusterBedMatrix) :=
  match pCbm with
  | none => none
  | some cbm => some (some cbm)

/-- Well-formedness of a loader-produced matrix, as load_perBaseMatrix
establishes it: row-pointer array in sync with the descriptors, row count
correct, and every label still at the 0 that AllocVar zero-filled. -/
def PBMWF (pbm : PerBaseMatrix) : Prop :=
  pbm.matrix = pbm.array.map (fun w => w.data) ∧
  pbm.nrow = pbm.array.length ∧
  ∀ w ∈ pbm.array, w.label = 0

instance (pbm : PerBaseMatrix) : Decidable (PBMWF pbm) := by
  unfold PBMWF
  exact inferInstance

/-! Basic lemmas about the indexed-update helper. -/

theorem modifyIdx_length {α : Type} (f : α → α) :
    ∀ (i : Nat) (l : List α), (modifyIdx f i l).length = l.length
  | 0, [] => rfl
  | _ + 1, [] => rfl
  | 0, _ :: _ => rfl
  | i + 1, _ :: xs => by simp [modifyIdx, modifyIdx_length f i xs]

theorem modifyIdx_getD_eq {α : Type} (f : α → α) (d : α) :
    ∀ (i : Nat) (l : List α), i < l.length →
      (modifyIdx f i l).getD i d = f (l.getD i d)
  | _, [], h => by simp at h
  | 0, _ :: _, _ => rfl
  | i + 1, _ :: xs, h => by
      simpa [modifyIdx] using modifyIdx_getD_eq f d i xs (Nat.lt_of_succ_lt_succ h)

theorem modifyIdx_getD_ne {α : Type} (f : α → α) (d : α) :
    ∀ (i j : Nat) (l : List α), j ≠ i →
      (modifyIdx f i l).getD j d = l.getD j d
  | _, _, [], _ => by simp [modifyIdx]
  | 0, 0, _ :: _, h => absurd rfl h
  | 0, _ + 1, _ :: _, _ => rfl
  | _ + 1, 0, _ :: _, _ => rfl
  | i + 1, j + 1, _ :: xs, h => by
      simpa [modifyIdx] using modifyIdx_getD_ne f d i j xs (fun e => h (by omega))

theorem modifyIdx_sum_succ :
    ∀ (i : Nat) (l : List Nat), i < l.length →
      (modifyIdx (· + 1) i l).sum = l.sum + 1
  | _, [], h => by simp at h
  | 0, x :: xs, _ => by simp [modifyIdx, Nat.add_assoc, Nat.add_comm 1 xs.sum]
  | i + 1, x :: xs, h => by
      have := modifyIdx_sum_succ i xs (Nat.lt_of_succ_lt_succ h)
      simp [modifyIdx, this, Nat.add_assoc]

/-! Lemmas about the closest-centroid scan. -/

theorem closestAux_le (r : List ℚ) :
    ∀ (cs : List (List ℚ)) (i : Nat) (b : Nat × ℚ),
      (closestAux r i b cs).2 ≤ b.2 ∧ ∀ c ∈ cs, (closestAux r i b cs).2 ≤ sqDist r c
  | [], _, _ => ⟨le_refl _, by simp⟩
  | c :: cs, i, b => by
      by_cases hd : sqDist r c < b.2
      · have ih := closestAux_le r cs (i + 1) (i, sqDist r c)
        have heq : closestAux r i b (c :: cs) = closestAux r (i + 1) (i, sqDist r c) cs := by
          simp [closestAux, hd]
        rw [heq]
        refine ⟨le_trans ih.1 (le_of_lt hd), ?_⟩
        intro c' hc'
        rcases List.mem_cons.mp hc' with h | h
        · subst h; exact ih.1
        · exact ih.2 c' h
      · have ih := closestAux_le r cs (i + 1) b
        have heq : closestAux r i b (c :: cs) = closestAux r (i + 1) b cs := by
          simp [closestAux, hd]
        rw [heq]
        refine ⟨ih.1, ?_⟩
        intro c' hc'
        rcases List.mem_cons.mp hc' with h | h
        · subst h
          exact le_trans ih.1 (not_lt.mp hd)
        · exact ih.2 c' h

theorem closestAux_cases (r : List ℚ) :
    ∀ (cs : List (List ℚ)) (i : Nat) (b : Nat × ℚ),
      closestAux r i b cs = b ∨
      ((closestAux r i b cs).2 < b.2 ∧ ∃ j, j < cs.length ∧
        (closestAux r i b cs).1 = i + j ∧
        (closestAux r i b cs).2 = sqDist r (cs.getD j []) ∧
        ∀ j', j' < j → (closestAux r i b cs).2 < sqDist r (cs.getD j' []))
  | [], _, _ => Or.inl rfl
  | c :: cs, i, b => by
      by_cases hd : sqDist r c < b.2
      · right
        have heq : closestAux r i b (c :: cs) = closestAux r (i + 1) (i, sqDist r c) cs := by
          simp [closestAux, hd]
        rcases closestAux_cases r cs (i + 1) (i, sqDist r c) with h | h
        · refine ⟨by rw [heq, h]; exact hd, 0, by simp, ?_, ?_, ?_⟩
          · rw [heq, h]; simp
          · rw [heq, h]; simp
          · intro j' hj'; omega
        · obtain ⟨hlt, j, hj, h1, h2, h3⟩ := h
          refine ⟨by rw [heq]; exact lt_trans hlt hd, j + 1, by simpa using hj, ?_, ?_, ?_⟩
          · rw [heq, h1]; omega
          · rw [heq, h2]; simp
          · intro j' hj'
            match j' with
            | 0 => rw [heq]; simpa using hlt
            | j' + 1 =>
                rw [heq]
                simpa using h3 j' (Nat.lt_of_succ_lt_succ hj')
      · have heq : closestAux r i b (c :: cs) = closestAux r (i + 1) b cs := by
          simp [closestAux, hd]
        rcases closestAux_cases r cs (i + 1) b with h | h
        · exact Or.inl (by rw [heq, h])
        · obtain ⟨hlt, j, hj, h1, h2, h3⟩ := h
          right
          refine ⟨by rw [heq]; exact hlt, j + 1, by simpa using hj, ?_, ?_, ?_⟩
          · rw [heq, h1]; omega
          · rw [heq, h2]; simp
          · intro j' hj'
            match j' with
            | 0 =>
                rw [heq]
                simpa using lt_of_lt_of_le hlt (not_lt.mp hd)
            | j' + 1 =>
                rw [heq]
                simpa using h3 j' (Nat.lt_of_succ_lt_succ hj')

theorem closestAux_fst_lt (r : List ℚ) :
    ∀ (cs : List (List ℚ)) (i : Nat) (b : Nat × ℚ) (B : Nat),
      b.1 < B → i + cs.length ≤ B → (closestAux r i b cs).1 < B
  | [], _, _, _, hb, _ => hb
  | c :: cs, i, b, B, hb, hlen => by
      by_cases hd : sqDist r c < b.2
      · have : closestAux r i b (c :: cs) = closestAux r (i + 1) (i, sqDist r c) cs := by
          simp [closestAux, hd]
        rw [this]
        exact closestAux_fst_lt r cs (i + 1) (i, sqDist r c) B (by simp at hlen ⊢; omega)
          (by simp at hlen ⊢; omega)
      · have : closestAux r i b (c :: cs) = closestAux r (i + 1) b cs := by
          simp [closestAux, hd]
        rw [this]
        exact closestAux_fst_lt r cs (i + 1) b B hb (by simp at hlen ⊢; omega)

theorem closest_fst_lt (cents : List (List ℚ)) (r : List ℚ) (h : cents ≠ []) :
    (closest cents r).1 < cents.length :=
  closestAux_fst_lt r cents 0 (0, dblMax) cents.length
    (List.length_pos.mpr h) (by omega)

theorem closest_min (cents : List (List ℚ)) (r : List ℚ) :
    ∀ c ∈ cents, (closest cents r).2 ≤ sqDist r c :=
  (closestAux_le r cents 0 (0, dblMax)).2

theorem closest_spec (cents : List (List ℚ)) (r : List ℚ)
    (hmin : ∃ c ∈ cents, sqDist r c < dblMax) :
    (closest cents r).2 = sqDist r (cents.getD (closest cents r).1 []) ∧
    ∀ j', j' < (closest cents r).1 →
      (closest cents r).2 < sqDist r (cents.getD j' []) := by
  simp only [closest]
  rcases closestAux_cases r cents 0 (0, dblMax) with h | h
  · exfalso
    obtain ⟨c, hc, hlt⟩ := hmin
    have hle := (closestAux_le r cents 0 (0, dblMax)).2 c hc
    rw [h] at hle
    exact absurd (lt_of_le_of_lt hle hlt) (lt_irrefl _)
  · obtain ⟨_, j, _, h1, h2, h3⟩ := h
    rw [h1, h2]
    constructor
    · norm_num
    · intro j' hj'
      have hlt := h3 j' (by omega)
      rw [h2] at hlt
      exact hlt

/-! Lemmas about one full iteration over the active rows. -/

theorem getD_replicate {α : Type} (a d : α) :
    ∀ (n i : Nat), i < n → (List.replicate n a).getD i d = a
  | 0, _, h => by simp at h
  | _ + 1, 0, _ => rfl
  | n + 1, i + 1, h => by
      simpa [List.replicate] using getD_replicate a d n i (Nat.lt_of_succ_lt_succ h)

theorem foldl_kIterStep_labels (cents : List (List ℚ)) :
    ∀ (rows : List (List ℚ)) (acc : IterAcc),
      (rows.foldl (kIterStep cents) acc).labels =
        acc.labels ++ rows.map (fun r => (closest cents r).1)
  | [], acc => by simp
  | r :: rows, acc => by
      simp [List.foldl_cons, foldl_kIterStep_labels cents rows, kIterStep]

theorem foldl_kIterStep_error (cents : List (List ℚ)) :
    ∀ (rows : List (List ℚ)) (acc : IterAcc),
      (rows.foldl (kIterStep cents) acc).error =
        acc.error + (rows.map (fun r => (closest cents r).2)).sum
  | [], acc => by simp
  | r :: rows, acc => by
      simp [List.foldl_cons, foldl_kIterStep_error cents rows, kIterStep, add_assoc]

theorem foldl_kIterStep_sizes_length (cents : List (List ℚ)) :
    ∀ (rows : List (List ℚ)) (acc : IterAcc),
      (rows.foldl (kIterStep cents) acc).sizes.length = acc.sizes.length
  | [], _ => rfl
  | r :: rows, acc => by
      simp [List.foldl_cons, foldl_kIterStep_sizes_length cents rows, kIterStep, modifyIdx_length]

theorem foldl_kIterStep_c1_length (cents : List (List ℚ)) :
    ∀ (rows : List (List ℚ)) (acc : IterAcc),
      (rows.foldl (kIterStep cents) acc).c1.length = acc.c1.length
  | [], _ => rfl
  | r :: rows, acc => by
      simp [List.foldl_cons, foldl_kIterStep_c1_length cents rows, kIterStep, modifyIdx_length]

theorem foldl_kIterStep_sizes_sum (cents : List (List ℚ)) (hne : cents ≠ []) :
    ∀ (rows : List (List ℚ)) (acc : IterAcc),
      acc.sizes.length = cents.length →
      (rows.foldl (kIterStep cents) acc).sizes.sum = acc.sizes.sum + rows.length
  | [], acc, _ => by simp
  | r :: rows, acc, h => by
      have hlt : (closest cents r).1 < acc.sizes.length := h ▸ closest_fst_lt cents r hne
      have hstep : (kIterStep cents acc r).sizes.sum = acc.sizes.sum + 1 := by
        simp [kIterStep, modifyIdx_sum_succ _ acc.sizes hlt]
      have hlen : (kIterStep cents acc r).sizes.length = cents.length := by
        simpa [kIterStep, modifyIdx_length] using h
      rw [List.foldl_cons, foldl_kIterStep_sizes_sum cents hne rows _ hlen, hstep]
      simp; omega

theorem foldl_kIterStep_c1_zero (cents : List (List ℚ)) (m : Nat) (hne : cents ≠ [])
    (rows : List (List ℚ)) : ∀ acc : IterAcc,
    acc.sizes.length = cents.length →
    (∀ i, i < cents.length → acc.sizes.getD i 0 = 0 → acc.c1.getD i [] = List.replicate m 0) →
    ∀ i, i < cents.length → (rows.foldl (kIterStep cents) acc).sizes.getD i 0 = 0 →
      (rows.foldl (kIterStep cents) acc).c1.getD i [] = List.replicate m 0 := by
  induction rows with
  | nil => intro acc _ hinv; exact hinv
  | cons r rows ih =>
      intro acc hs hinv
      simp only [List.foldl_cons]
      apply ih
      · simpa [kIterStep, modifyIdx_length] using hs
      · intro i hi hz
        simp only [kIterStep] at hz ⊢
        by_cases hil : i = (closest cents r).1
        · exfalso
          rw [hil] at hz
          rw [modifyIdx_getD_eq _ 0 _ acc.sizes
            (by rw [hs]; exact closest_fst_lt cents r hne)] at hz
          omega
        · rw [modifyIdx_getD_ne _ [] _ i acc.c1 hil]
          rw [modifyIdx_getD_ne _ 0 _ i acc.sizes hil] at hz
          exact hinv i hi hz

theorem kIter_labels (k m : Nat) (cents active : List (List ℚ)) :
    (kIter k m cents active).labels = active.map (fun r => (closest cents r).1) := by
  simpa [kIter] using foldl_kIterStep_labels cents active
    ⟨[], List.replicate k (List.replicate m 0), List.replicate k 0, 0⟩

theorem kIter_error (k m : Nat) (cents active : List (List ℚ)) :
    (kIter k m cents active).error = (active.map (fun r => (closest cents r).2)).sum := by
  simpa [kIter] using foldl_kIterStep_error cents active
    ⟨[], List.replicate k (List.replicate m 0), List.replicate k 0, 0⟩

theorem kIter_sizes_length (k m : Nat) (cents active : List (List ℚ)) :
    (kIter k m cents active).sizes.length = k := by
  simpa [kIter] using foldl_kIterStep_sizes_length cents active
    ⟨[], List.replicate k (List.replicate m 0), List.replicate k 0, 0⟩

theorem kIter_c1_length (k m : Nat) (cents active : List (List ℚ)) :
    (kIter k m cents active).c1.length = k := by
  simpa [kIter] using foldl_kIterStep_c1_length cents active
    ⟨[], List.replicate k (List.replicate m 0), List.replicate k 0, 0⟩

theorem kIter_sizes_sum (k m : Nat) (cents active : List (List ℚ))
    (hlen : cents.length = k) (hne : cents ≠ []) :
    (kIter k m cents active).sizes.sum = active.length := by
  have := foldl_kIterStep_sizes_sum cents hne active
    ⟨[], List.replicate k (List.replicate m 0), List.replicate k 0, 0⟩ (by simpa using hlen.symm)
  simpa [kIter] using this

theorem kIter_c1_zero (k m : Nat) (cents active : List (List ℚ))
    (hlen : cents.length = k) (hne : cents ≠ []) :
    ∀ i, i < k → (kIter k m cents active).sizes.getD i 0 = 0 →
      (kIter k m cents active).c1.getD i [] = List.replicate m 0 := by
  intro i hi hz
  have := foldl_kIterStep_c1_zero cents m hne active
    ⟨[], List.replicate k (List.replicate m 0), List.replicate k 0, 0⟩
    (by simpa using hlen.symm)
    (by
      intro j hj _
      exact getD_replicate _ _ k j (hlen ▸ hj))
    i (hlen ▸ hi)
  exact this hz

theorem updateCentroids_length (c1 : List (List ℚ)) (sizes : List Nat) :
    (updateCentroids c1 sizes).length = min c1.length sizes.length := by
  simp [updateCentroids]

theorem updateCentroids_getD :
    ∀ (c1 : List (List ℚ)) (sizes : List Nat) (i : Nat),
      i < c1.length → i < sizes.length →
      (updateCentroids c1 sizes).getD i [] =
        if sizes.getD i 0 ≠ 0 then
          (c1.getD i []).map (fun x => x / ((sizes.getD i 0 : Nat) : ℚ))
        else c1.getD i []
  | [], _, _, h, _ => by simp at h
  | _ :: _, [], _, _, h => by simp at h
  | c :: c1, s :: sizes, 0, _, _ => by simp [updateCentroids]
  | c :: c1, s :: sizes, i + 1, h1, h2 => by
      simpa [updateCentroids] using
        updateCentroids_getD c1 sizes i (by simpa using h1) (by simpa using h2)

/-! Stability, sortedness and permutation facts for the label-keyed sort. -/

theorem orderedInsert_filter_eq (v : Int) (x : PerBaseWig) (hx : x.label = v) :
    ∀ l : List PerBaseWig,
      (List.orderedInsert labelLe x l).filter (fun w => w.label == v) =
        x :: l.filter (fun w => w.label == v)
  | [] => by simp [hx]
  | y :: ys => by
      by_cases hr : labelLe x y
      · simp [List.orderedInsert, hr, List.filter_cons, hx]
      · have hy : ¬(y.label = v) := by
          have : y.label < x.label := by
            have := not_le.mp (fun h => hr h)
            exact this
          omega
        simp [List.orderedInsert, hr, List.filter_cons, hy,
          orderedInsert_filter_eq v x hx ys]

theorem orderedInsert_filter_ne (v : Int) (x : PerBaseWig) (hx : ¬(x.label = v)) :
    ∀ l : List PerBaseWig,
      (List.orderedInsert labelLe x l).filter (fun w => w.label == v) =
        l.filter (fun w => w.label == v)
  | [] => by simp [hx]
  | y :: ys => by
      by_cases hr : labelLe x y
      · simp [List.orderedInsert, hr, List.filter_cons, hx]
      · simp [List.orderedInsert, hr, List.filter_cons,
          orderedInsert_filter_ne v x hx ys]

/-- Stability of the label-keyed sort: the subsequence of rows carrying any
fixed label is unchanged by the sort. -/
theorem sortByLabel_stable (v : Int) :
    ∀ l : List PerBaseWig,
      (sortByLabel l).filter (fun w => w.label == v) = l.filter (fun w => w.label == v)
  | [] => rfl
  | x :: l => by
      by_cases hx : x.label = v
      · simp only [sortByLabel, List.insertionSort]
        rw [orderedInsert_filter_eq v x hx]
        simp [List.filter_cons, hx, sortByLabel_stable v l]
        exact sortByLabel_stable v l
      · simp only [sortByLabel, List.insertionSort]
        rw [orderedInsert_filter_ne v x hx]
        simpa [List.filter_cons, hx] using sortByLabel_stable v l

theorem sortByLabel_sorted (l : List PerBaseWig) :
    (sortByLabel l).Pairwise labelLe :=
  List.sorted_insertionSort labelLe l

theorem sortByLabel_perm (l : List PerBaseWig) : (sortByLabel l).Perm l :=
  List.perm_insertionSort labelLe l

theorem sortByLabel_length (l : List PerBaseWig) : (sortByLabel l).length = l.length :=
  (sortByLabel_perm l).length_eq

theorem sortByLabel_mem (l : List PerBaseWig) (w : PerBaseWig) :
    w ∈ sortByLabel l ↔ w ∈ l :=
  (sortByLabel_perm l).mem_iff

/-- In a label-sorted list whose labels are all -1 or nonnegative, the
rows labeled -1 are exactly the first `count` positions, where `count` is
the number of -1 labels. -/
theorem sorted_neg_front :
    ∀ l : List PerBaseWig, l.Pairwise labelLe →
      (∀ w ∈ l, w.label = -1 ∨ 0 ≤ w.label) →
      ∀ i, i < l.length →
        ((l.getD i wdef).label = -1 ↔ i < (l.filter (fun w => w.label == (-1 : Int))).length)
  | [], _, _ => by intro i hi; simp at hi
  | w :: l, hs, hl => by
      intro i hi
      rcases hl w (List.mem_cons_self w l) with hw | hw
      · cases i with
        | zero => simp [List.filter_cons, hw]
        | succ i =>
            have ih := sorted_neg_front l (List.Pairwise.of_cons hs)
              (fun w' h' => hl w' (List.mem_cons_of_mem w h')) i (by simpa using hi)
            simpa [List.filter_cons, hw] using ih
      · have hall : ∀ w' ∈ w :: l, ¬(w'.label = -1) := by
          intro w' hw'
          rcases List.mem_cons.mp hw' with h | h
          · subst h; omega
          · have := (List.pairwise_cons.mp hs).1 w' h
            have : w.label ≤ w'.label := this
            omega
        have h1 : ¬(((w :: l).getD i wdef).label = -1) := by
          rw [List.getD_eq_getElem _ wdef hi]
          exact hall _ (List.getElem_mem hi)
        have h2 : ((w :: l).filter (fun w => w.label == (-1 : Int))) = [] := by
          rw [List.filter_eq_nil_iff]
          intro w' hw'
          simpa using hall w' hw'
        rw [h2]
        simpa using h1

/-! Facts about the NA filter. -/

theorem markNA_length (arr : List PerBaseWig) : (markNA arr).length = arr.length := by
  simp [markNA]

theorem markNA_data (arr : List PerBaseWig) :
    (markNA arr).map (fun w => w.data) = arr.map (fun w => w.data) := by
  induction arr with
  | nil => rfl
  | cons w arr ih =>
      by_cases h : hasNA w.data
      · simp [markNA, h] at ih ⊢; exact ih
      · simp [markNA, h] at ih ⊢; exact ih

theorem markNA_mem (arr : List PerBaseWig) (h0 : ∀ w ∈ arr, w.label = 0) :
    ∀ w ∈ markNA arr, (w.label = -1 ∨ w.label = 0) ∧ (w.label = -1 ↔ hasNA w.data = true) := by
  intro w hw
  obtain ⟨w', hw', rfl⟩ := List.mem_map.mp hw
  by_cases h : hasNA w'.data
  · simp [h]
  · have := h0 w' hw'
    simp [h, this]

theorem markNA_filter_len (arr : List PerBaseWig) (h0 : ∀ w ∈ arr, w.label = 0) :
    ((markNA arr).filter (fun w => w.label == (-1 : Int))).length =
      (arr.filter (fun w => hasNA w.data)).length := by
  induction arr with
  | nil => rfl
  | cons w arr ih =>
      have hw0 := h0 w (List.mem_cons_self w arr)
      have ih' := ih (fun w' h' => h0 w' (List.mem_cons_of_mem w h'))
      by_cases h : hasNA w.data
      · simp [markNA, List.filter_cons, h] at ih' ⊢
        exact ih'
      · have : ¬(w.label == (-1 : Int)) = true := by simp [hw0]
        simp [markNA, List.filter_cons, h, this] at ih' ⊢
        exact ih'

theorem clear_na_rows_array (pbm : PerBaseMatrix) :
    (clear_na_rows pbm).1.array = sortByLabel (markNA pbm.array) := rfl

theorem clear_na_rows_matrix (pbm : PerBaseMatrix) :
    (clear_na_rows pbm).1.matrix = (clear_na_rows pbm).1.array.map (fun w => w.data) := rfl

theorem clear_na_rows_count (pbm : PerBaseMatrix) :
    (clear_na_rows pbm).2 = (pbm.array.filter (fun w => hasNA w.data)).length := rfl

theorem clear_na_rows_length (pbm : PerBaseMatrix) :
    (clear_na_rows pbm).1.array.length = pbm.array.length := by
  rw [clear_na_rows_array, sortByLabel_length, markNA_length]

theorem clear_na_rows_count_le (pbm : PerBaseMatrix) :
    (clear_na_rows pbm).2 ≤ pbm.array.length := by
  rw [clear_na_rows_count]
  exact List.length_filter_le _ _

theorem clear_na_rows_mem (pbm : PerBaseMatrix) (h0 : ∀ w ∈ pbm.array, w.label = 0) :
    ∀ w ∈ (clear_na_rows pbm).1.array,
      (w.label = -1 ∨ w.label = 0) ∧ (w.label = -1 ↔ hasNA w.data = true) := by
  intro w hw
  rw [clear_na_rows_array, sortByLabel_mem] at hw
  exact markNA_mem pbm.array h0 w hw

theorem clear_na_rows_pos (pbm : PerBaseMatrix) (h0 : ∀ w ∈ pbm.array, w.label = 0) :
    ∀ i, i < (clear_na_rows pbm).1.array.length →
      (((clear_na_rows pbm).1.array.getD i wdef).label = -1 ↔ i < (clear_na_rows pbm).2) := by
  intro i hi
  have hcnt : (((clear_na_rows pbm).1.array).filter (fun w => w.label == (-1 : Int))).length =
      (clear_na_rows pbm).2 := by
    rw [clear_na_rows_array, sortByLabel_stable, markNA_filter_len pbm.array h0,
      clear_na_rows_count]
  have hsorted : (clear_na_rows pbm).1.array.Pairwise labelLe := by
    rw [clear_na_rows_array]
    exact sortByLabel_sorted _
  have hlab : ∀ w ∈ (clear_na_rows pbm).1.array, w.label = -1 ∨ 0 ≤ w.label := by
    intro w hw
    rcases (clear_na_rows_mem pbm h0 w hw).1 with h | h
    · exact Or.inl h
    · exact Or.inr (by omega)
  rw [← hcnt]
  exact sorted_neg_front _ hsorted hlab i hi

/-! Facts about the main loop. -/

theorem kLoop_some_labels (k m : Nat) (active : List (List ℚ)) (t : ℚ) (hk : 0 < k) :
    ∀ (fuel : Nat) (cents : List (List ℚ)) (old : ℚ) (out : KLoopOut),
      cents.length = k →
      kLoop k m active t fuel cents old = some out →
      out.labels.length = active.length ∧ (∀ x ∈ out.labels, x < k) ∧
      out.sizes.length = k := by
  intro fuel
  induction fuel with
  | zero => intro cents old out _ h; simp [kLoop] at h
  | succ fuel ih =>
      intro cents old out hlen h
      simp only [kLoop] at h
      have hne : cents ≠ [] := by
        intro hc; rw [hc] at hlen; simp at hlen; omega
      have hc2len : (updateCentroids (kIter k m cents active).c1 (kIter k m cents active).sizes).length = k := by
        rw [updateCentroids_length, kIter_c1_length, kIter_sizes_length]
        omega
      by_cases hcond : |(kIter k m cents active).error - old| > t
      · rw [if_pos hcond] at h
        rcases Option.map_eq_some'.mp h with ⟨r, hr, hout⟩
        have := ih _ _ _ hc2len hr
        rw [← hout]
        exact this
      · rw [if_neg hcond] at h
        injection h with h'
        subst h'
        refine ⟨?_, ?_, ?_⟩
        · rw [kIter_labels]; simp
        · intro x hx
          rw [kIter_labels] at hx
          obtain ⟨r, _, rfl⟩ := List.mem_map.mp hx
          have := closest_fst_lt cents r hne
          omega
        · exact kIter_sizes_length k m cents active

/-- Centroids held at the start of iteration i+1 of the main loop (index 0
is the seeded state). -/
def centsAt (k m : Nat) (active cents : List (List ℚ)) : Nat → List (List ℚ)
  | 0 => cents
  | i + 1 =>
      let a := kIter k m (centsAt k m active cents i) active
      updateCentroids a.c1 a.sizes

/-- Error computed by iteration i of the main loop; index 0 is the initial
"previous error" (DBL_MAX in k_means). -/
def errAt (k m : Nat) (active cents : List (List ℚ)) (prev : ℚ) : Nat → ℚ
  | 0 => prev
  | i + 1 => (kIter k m (centsAt k m active cents i) active).error

theorem centsAt_shift (k m : Nat) (active cents : List (List ℚ)) :
    ∀ i, centsAt k m active cents (i + 1) =
      centsAt k m active
        (updateCentroids (kIter k m cents active).c1 (kIter k m cents active).sizes) i
  | 0 => rfl
  | i + 1 => by
      show updateCentroids (kIter k m (centsAt k m active cents (i + 1)) active).c1
          (kIter k m (centsAt k m active cents (i + 1)) active).sizes = _
      rw [centsAt_shift k m active cents i]
      rfl

theorem errAt_shift (k m : Nat) (active cents : List (List ℚ)) (prev : ℚ) :
    ∀ i, errAt k m active cents prev (i + 1) =
      errAt k m active
        (updateCentroids (kIter k m cents active).c1 (kIter k m cents active).sizes)
        ((kIter k m cents active).error) i
  | 0 => rfl
  | i + 1 => by
      show (kIter k m (centsAt k m active cents (i + 1)) active).error = _
      rw [centsAt_shift]
      rfl

/-- Exit behavior of the fueled do-while loop: when it returns, it ran at
least one full iteration, the last iteration's error is within t of the
previous one, and every earlier consecutive pair of errors differs by more
than t. -/
theorem kLoop_exit (k m : Nat) (active : List (List ℚ)) (t : ℚ) :
    ∀ (fuel : Nat) (cents : List (List ℚ)) (prev : ℚ) (out : KLoopOut),
      kLoop k m active t fuel cents prev = some out →
      1 ≤ out.iters ∧ out.iters ≤ fuel ∧
      |errAt k m active cents prev out.iters -
        errAt k m active cents prev (out.iters - 1)| ≤ t ∧
      ∀ i, 1 ≤ i → i < out.iters →
        t < |errAt k m active cents prev i - errAt k m active cents prev (i - 1)| := by
  intro fuel
  induction fuel with
  | zero => intro cents prev out h; simp [kLoop] at h
  | succ fuel ih =>
      intro cents prev out h
      simp only [kLoop] at h
      by_cases hcond : |(kIter k m cents active).error - prev| > t
      · rw [if_pos hcond] at h
        rcases Option.map_eq_some'.mp h with ⟨r, hr, hout⟩
        obtain ⟨h1, h2, h3, h4⟩ := ih _ _ _ hr
        rw [← hout]
        have hiters : ({ r with iters := r.iters + 1 } : KLoopOut).iters = r.iters + 1 := rfl
        rw [hiters]
        refine ⟨by omega, by omega, ?_, ?_⟩
        · have e1 := errAt_shift k m active cents prev r.iters
          have hpred : r.iters - 1 + 1 = r.iters := by omega
          have e2 := errAt_shift k m active cents prev (r.iters - 1)
          rw [hpred] at e2
          simp only [Nat.add_sub_cancel]
          rw [e1, e2]
          exact h3
        · intro i hi1 hilt
          match i, hi1 with
          | 1, _ =>
              simpa [errAt] using hcond
          | i + 2, _ =>
              have e1 := errAt_shift k m active cents prev (i + 1)
              have e2 := errAt_shift k m active cents prev i
              have : i + 2 - 1 = i + 1 := by omega
              rw [this, e1, e2]
              have := h4 (i + 1) (by omega) (by omega)
              simpa using this
      · rw [if_neg hcond] at h
        injection h with h'
        subst h'
        refine ⟨le_refl 1, by show 1 ≤ fuel + 1; omega, ?_, ?_⟩
        · simpa [errAt] using not_lt.mp hcond
        · intro i hi1 hilt
          have hlt1 : i < 1 := hilt
          omega

/-! Facts about seeding and label write-back. -/

theorem seedLoop_length (mat : List (List Val)) (stride : Nat) :
    ∀ (count h : Nat), (seedLoop mat stride h count).length = count
  | 0, _ => rfl
  | count + 1, h => by
      simp [seedLoop, seedLoop_length mat stride count (h + stride)]

theorem seedLoop_getD (mat : List (List Val)) (stride : Nat) :
    ∀ (count h i : Nat), i < count →
      (seedLoop mat stride h count).getD i [] = rowQ (mat.getD (h + i * stride) [])
  | 0, _, _, hi => by simp at hi
  | _ + 1, h, 0, _ => by simp [seedLoop]
  | count + 1, h, i + 1, hi => by
      have ih := seedLoop_getD mat stride count (h + stride) i (by omega)
      have hidx : h + stride + i * stride = h + (i + 1) * stride := by ring
      simpa [seedLoop, hidx] using ih

theorem applyLabelsAux_length (num_na : Nat) (labels : List Int) :
    ∀ (arr : List PerBaseWig) (s : Nat), (applyLabelsAux num_na labels s arr).length = arr.length
  | [], _ => rfl
  | _ :: ws, s => by
      simp [applyLabelsAux, applyLabelsAux_length num_na labels ws (s + 1)]

theorem applyLabelsAux_getD (num_na : Nat) (labels : List Int) :
    ∀ (arr : List PerBaseWig) (s i : Nat), i < arr.length →
      (applyLabelsAux num_na labels s arr).getD i wdef =
        if num_na ≤ s + i then
          { arr.getD i wdef with label := labels.getD (s + i) 0 }
        else arr.getD i wdef
  | [], _, _, hi => by simp at hi
  | w :: ws, s, 0, _ => by simp [applyLabelsAux]
  | w :: ws, s, i + 1, hi => by
      have ih := applyLabelsAux_getD num_na labels ws (s + 1) i (by simpa using hi)
      have hidx : s + 1 + i = s + (i + 1) := by omega
      rw [hidx] at ih
      simpa [applyLabelsAux] using ih

theorem applyLabels_length (num_na : Nat) (labels : List Int) (arr : List PerBaseWig) :
    (applyLabels num_na labels arr).length = arr.length :=
  applyLabelsAux_length num_na labels arr 0

theorem applyLabels_getD (num_na : Nat) (labels : List Int) (arr : List PerBaseWig)
    (i : Nat) (hi : i < arr.length) :
    (applyLabels num_na labels arr).getD i wdef =
      if num_na ≤ i then { arr.getD i wdef with label := labels.getD i 0 }
      else arr.getD i wdef := by
  simpa using applyLabelsAux_getD num_na labels arr 0 i hi

/-- A list whose -1 labels sit exactly at the positions below c has exactly
c rows labeled -1. -/
theorem filter_neg_len_of_pos :
    ∀ (l : List PerBaseWig) (c : Nat), c ≤ l.length →
      (∀ i, i < l.length → (((l.getD i wdef).label = -1) ↔ i < c)) →
      (l.filter (fun w => w.label == (-1 : Int))).length = c
  | [], c, hc, _ => by
      simp at hc
      simp [hc]
  | w :: l, c, hc, h => by
      match c with
      | 0 =>
          have hw : ¬(w.label = -1) := by
            have := h 0 (by simp)
            simpa using this
          have hrest := filter_neg_len_of_pos l 0 (by omega) (fun i hi => by
            have := h (i + 1) (by simpa using hi)
            simpa using this)
          simp [List.filter_cons, hw, hrest]
      | c + 1 =>
          have hw : w.label = -1 := by
            have := h 0 (by simp)
            simpa using this.mpr (by omega)
          have hrest := filter_neg_len_of_pos l c (by simpa using hc) (fun i hi => by
            have := h (i + 1) (by simpa using hi)
            simpa using this)
          simp [List.filter_cons, hw, hrest]

/-- Transfer of the positional facts of `applyLabels` to membership form. -/
theorem mem_of_getD (l : List PerBaseWig) (P : PerBaseWig → Prop)
    (h : ∀ i, i < l.length → P (l.getD i wdef)) : ∀ w ∈ l, P w := by
  intro w hw
  obtain ⟨i, hi, rfl⟩ := List.mem_iff_getElem.mp hw
  have := h i hi
  rwa [List.getD_eq_getElem l wdef hi] at this

/-- Combined specification of a completed do_kmeans run on a freshly
loaded matrix: the NA count and k are kept, the length is preserved, the
row-pointer array mirrors the descriptors, the descriptors are sorted by
label, every label is -1 exactly on the NA rows and otherwise lies in
[0, k), and the -1 rows are exactly the first num_na positions. -/
theorem do_kmeans_spec (pbm : PerBaseMatrix) (k : Nat) (t : ℚ) (fuel : Nat)
    (cbm' : ClusterBedMatrix)
    (h0 : ∀ w ∈ pbm.array, w.label = 0) (hk : 0 < k)
    (hrun : do_kmeans (init_cbm_from_pbm pbm k) t fuel = some cbm') :
    cbm'.num_na = (clear_na_rows pbm).2 ∧
    cbm'.k = k ∧
    cbm'.n = pbm.nrow ∧
    cbm'.pbm.array.length = pbm.array.length ∧
    cbm'.pbm.matrix = cbm'.pbm.array.map (fun w => w.data) ∧
    cbm'.pbm.array.Pairwise labelLe ∧
    (∀ w ∈ cbm'.pbm.array,
      (w.label = -1 ∨ (0 ≤ w.label ∧ w.label < (k : Int))) ∧
      (w.label = -1 ↔ hasNA w.data = true)) ∧
    (∀ i, i < cbm'.pbm.array.length →
      (((cbm'.pbm.array.getD i wdef).label = -1) ↔ i < (clear_na_rows pbm).2)) := by
  have hinitpbm : (init_cbm_from_pbm pbm k).pbm = (clear_na_rows pbm).1 := rfl
  have hinitna : (init_cbm_from_pbm pbm k).num_na = (clear_na_rows pbm).2 := rfl
  have hinitk : (init_cbm_from_pbm pbm k).k = k := rfl
  have hA0len : (clear_na_rows pbm).1.array.length = pbm.array.length :=
    clear_na_rows_length pbm
  have hcle : (clear_na_rows pbm).2 ≤ pbm.array.length := clear_na_rows_count_le pbm
  have hF1 := clear_na_rows_pos pbm h0
  have hF2 := clear_na_rows_mem pbm h0
  unfold do_kmeans at hrun
  cases hkm : k_means (init_cbm_from_pbm pbm k) t fuel with
  | none => simp [hkm] at hrun
  | some out =>
      simp only [hkm, Option.some.injEq] at hrun
      subst hrun
      unfold k_means at hkm
      cases hkl : kLoop (init_cbm_from_pbm pbm k).k (init_cbm_from_pbm pbm k).m
          (activeRows (init_cbm_from_pbm pbm k)) t fuel
          (initCentroids (init_cbm_from_pbm pbm k)) dblMax with
      | none => simp [hkl] at hkm
      | some kout =>
          simp only [hkl, Option.some.injEq] at hkm
          have hlabels : out.labels =
              List.replicate (init_cbm_from_pbm pbm k).num_na (0 : Int) ++
                kout.labels.map Int.ofNat := by
            rw [← hkm]
          have hactlen : (activeRows (init_cbm_from_pbm pbm k)).length =
              pbm.array.length - (clear_na_rows pbm).2 := by
            unfold activeRows
            rw [hinitpbm, hinitna, clear_na_rows_matrix]
            simp [hA0len]
          have hseedlen : (initCentroids (init_cbm_from_pbm pbm k)).length =
              (init_cbm_from_pbm pbm k).k := by
            unfold initCentroids
            exact seedLoop_length _ _ _ _
          obtain ⟨hkoutlen, hkoutmem, _⟩ :=
            kLoop_some_labels (init_cbm_from_pbm pbm k).k (init_cbm_from_pbm pbm k).m
              (activeRows (init_cbm_from_pbm pbm k)) t hk fuel
              (initCentroids (init_cbm_from_pbm pbm k)) dblMax kout hseedlen hkl
          have hlabval : ∀ i, (clear_na_rows pbm).2 ≤ i → i < pbm.array.length →
              ∃ x : Nat, x < k ∧ out.labels.getD i 0 = Int.ofNat x := by
            intro i hci hilt
            rw [hlabels]
            rw [List.getD_append_right _ _ _ _ (by simpa [hinitna] using hci)]
            have hb2 : i - (clear_na_rows pbm).2 < kout.labels.length := by
              rw [hkoutlen, hactlen]
              omega
            have hb : i - (List.replicate (init_cbm_from_pbm pbm k).num_na (0 : Int)).length <
                (kout.labels.map Int.ofNat).length := by
              simpa [hinitna] using hb2
            refine ⟨kout.labels[i - (clear_na_rows pbm).2], ?_, ?_⟩
            · exact hkoutmem _ (List.getElem_mem hb2)
            · rw [List.getD_eq_getElem _ _ hb, List.getElem_map]
              congr 1
              simp [hinitna]
          have hA1len : (applyLabels (init_cbm_from_pbm pbm k).num_na out.labels
              (init_cbm_from_pbm pbm k).pbm.array).length = pbm.array.length := by
            rw [applyLabels_length, hinitpbm, hA0len]
          have hA0get : ∀ i, i < pbm.array.length →
              ((clear_na_rows pbm).1.array.getD i wdef) ∈ (clear_na_rows pbm).1.array := by
            intro i hi
            have hib : i < (clear_na_rows pbm).1.array.length := by omega
            rw [List.getD_eq_getElem _ wdef hib]
            exact List.getElem_mem hib
          have hA1a : ∀ i, i < pbm.array.length →
              (((applyLabels (init_cbm_from_pbm pbm k).num_na out.labels
                (init_cbm_from_pbm pbm k).pbm.array).getD i wdef).label = -1 ↔
                i < (clear_na_rows pbm).2) := by
            intro i hi
            rw [applyLabels_getD _ _ _ i (by rw [hinitpbm]; omega)]
            by_cases hci : (init_cbm_from_pbm pbm k).num_na ≤ i
            · rw [if_pos hci]
              obtain ⟨x, _, hx⟩ := hlabval i (by simpa [hinitna] using hci) hi
              simp only [hx]
              constructor
              · intro hbad; exfalso; simp at hbad
              · intro hbad; exfalso; rw [hinitna] at hci; omega
            · rw [if_neg hci]
              rw [hinitna] at hci
              rw [hinitpbm]
              exact hF1 i (by omega)
          have hA1b : ∀ i, i < pbm.array.length →
              (((applyLabels (init_cbm_from_pbm pbm k).num_na out.labels
                (init_cbm_from_pbm pbm k).pbm.array).getD i wdef).label = -1 ∨
               (0 ≤ ((applyLabels (init_cbm_from_pbm pbm k).num_na out.labels
                (init_cbm_from_pbm pbm k).pbm.array).getD i wdef).label ∧
                ((applyLabels (init_cbm_from_pbm pbm k).num_na out.labels
                (init_cbm_from_pbm pbm k).pbm.array).getD i wdef).label < (k : Int))) := by
            intro i hi
            rw [applyLabels_getD _ _ _ i (by rw [hinitpbm]; omega)]
            by_cases hci : (init_cbm_from_pbm pbm k).num_na ≤ i
            · rw [if_pos hci]
              obtain ⟨x, hxk, hx⟩ := hlabval i (by simpa [hinitna] using hci) hi
              right
              simp only [hx]
              constructor
              · simp
              · simpa using hxk
            · rw [if_neg hci]
              rw [hinitna] at hci
              left
              rw [hinitpbm]
              exact (hF1 i (by omega)).mpr (by omega)
          have hA1c : ∀ i, i < pbm.array.length →
              (((applyLabels (init_cbm_from_pbm pbm k).num_na out.labels
                (init_cbm_from_pbm pbm k).pbm.array).getD i wdef).label = -1 ↔
               hasNA ((applyLabels (init_cbm_from_pbm pbm k).num_na out.labels
                (init_cbm_from_pbm pbm k).pbm.array).getD i wdef).data = true) := by
            intro i hi
            rw [applyLabels_getD _ _ _ i (by rw [hinitpbm]; omega)]
            by_cases hci : (init_cbm_from_pbm pbm k).num_na ≤ i
            · rw [if_pos hci]
              obtain ⟨x, _, hx⟩ := hlabval i (by simpa [hinitna] using hci) hi
              have hnotneg : ¬(((clear_na_rows pbm).1.array.getD i wdef).label = -1) := by
                rw [hinitna] at hci
                rw [hF1 i (by omega)]
                omega
              have hna := (hF2 _ (hA0get i hi)).2
              constructor
              · intro hbad; exfalso; rw [hinitpbm] at hbad; simp only [hx] at hbad; simp at hbad
              · intro hbad
                exfalso
                rw [hinitpbm] at hbad
                exact hnotneg (hna.mpr hbad)
            · rw [if_neg hci]
              rw [hinitpbm]
              exact (hF2 _ (hA0get i hi)).2
          have hA1cnt : ((applyLabels (init_cbm_from_pbm pbm k).num_na out.labels
              (init_cbm_from_pbm pbm k).pbm.array).filter
                (fun w => w.label == (-1 : Int))).length = (clear_na_rows pbm).2 :=
            filter_neg_len_of_pos _ _ (by omega)
              (fun i hi => hA1a i (by omega))
          refine ⟨rfl, rfl, rfl, ?_, rfl, ?_, ?_, ?_⟩
          · show (sortByLabel (applyLabels (init_cbm_from_pbm pbm k).num_na out.labels
              (init_cbm_from_pbm pbm k).pbm.array)).length = pbm.array.length
            rw [sortByLabel_length, hA1len]
          · exact sortByLabel_sorted _
          · intro w hw
            have hw1 : w ∈ applyLabels (init_cbm_from_pbm pbm k).num_na out.labels
                (init_cbm_from_pbm pbm k).pbm.array := (sortByLabel_mem _ _).mp hw
            refine mem_of_getD _ (fun w =>
              (w.label = -1 ∨ (0 ≤ w.label ∧ w.label < (k : Int))) ∧
              (w.label = -1 ↔ hasNA w.data = true)) ?_ w hw1
            intro i hi
            exact ⟨hA1b i (by omega), hA1c i (by omega)⟩
          · intro i hi
            have hsorted : (sortByLabel (applyLabels (init_cbm_from_pbm pbm k).num_na out.labels
                (init_cbm_from_pbm pbm k).pbm.array)).Pairwise labelLe := sortByLabel_sorted _
            have hrange : ∀ w ∈ sortByLabel (applyLabels (init_cbm_from_pbm pbm k).num_na
                out.labels (init_cbm_from_pbm pbm k).pbm.array),
                w.label = -1 ∨ 0 ≤ w.label := by
              intro w hw
              have hw1 := (sortByLabel_mem _ _).mp hw
              have := mem_of_getD _ (fun w =>
                w.label = -1 ∨ (0 ≤ w.label ∧ w.label < (k : Int)))
                (fun i hi => hA1b i (by omega)) w hw1
              rcases this with h | h
              · exact Or.inl h
              · exact Or.inr h.1
            have := sorted_neg_front _ hsorted hrange i hi
            rw [this]
            rw [sortByLabel_stable, hA1cnt]

/-! Claim theorems. -/

/-- C9: free_cbm (cluster.c:129-137) loads *pCbm and immediately
dereferences it for free_perBaseMatrix(&cbm->pbm), with no null guard
(unlike e.g. annoAssemblyClose), so a NULL handle is undefined behavior in
the model (none), not the harmless no-op the claim states. -/
theorem C9_free_null_crashes : free_cbm none = none := rfl

/-- C7 counterexample: init_cbm_from_pbm validates nothing.  On a one-row
NA-free matrix, construction succeeds and returns a fully initialized
state both for k = 5 (which exceeds n - num_excluded = 1) and for k = 0,
contradicting the claim that it fails with a usage error. -/
theorem C7_no_validation_counterexample :
    init_cbm_from_pbm ⟨1, 1, [[some 1]], [⟨0, 0, [some 1]⟩]⟩ 5 =
      ⟨⟨1, 1, [[some 1]], [⟨0, 0, [some 1]⟩]⟩, 1, 1, 5, 0, [], []⟩ ∧
    init_cbm_from_pbm ⟨1, 1, [[some 1]], [⟨0, 0, [some 1]⟩]⟩ 0 =
      ⟨⟨1, 1, [[some 1]], [⟨0, 0, [some 1]⟩]⟩, 1, 1, 0, 0, [], []⟩ := by
  constructor
  · rfl
  · rfl

/-- C7 (amended): construction never fails and never checks k; the state
simply records k and the NA count, and when k exceeds the number of usable
rows the integer seeding stride is 0, so every initial centroid is a copy
of the single row at index num_excluded. -/
theorem C7_no_validation (pbm : PerBaseMatrix) (k : Nat)
    (hbig : pbm.nrow - (clear_na_rows pbm).2 < k) :
    (init_cbm_from_pbm pbm k).k = k ∧
    (init_cbm_from_pbm pbm k).num_na = (clear_na_rows pbm).2 ∧
    ∀ i, i < k →
      (initCentroids (init_cbm_from_pbm pbm k)).getD i [] =
        rowQ ((init_cbm_from_pbm pbm k).pbm.matrix.getD (clear_na_rows pbm).2 []) := by
  refine ⟨rfl, rfl, ?_⟩
  intro i hi
  have hstride : ((init_cbm_from_pbm pbm k).n - (init_cbm_from_pbm pbm k).num_na) /
      (init_cbm_from_pbm pbm k).k = 0 :=
    Nat.div_eq_of_lt hbig
  unfold initCentroids
  rw [hstride]
  have := seedLoop_getD (init_cbm_from_pbm pbm k).pbm.matrix 0
    (init_cbm_from_pbm pbm k).k (init_cbm_from_pbm pbm k).num_na i hi
  simpa using this

/-- C7 witness for the amended theorem, at the one-row matrix with k = 5. -/
theorem C7_no_validation_witness :
    ((⟨1, 1, [[some 1]], [⟨0, 0, [some 1]⟩]⟩ : PerBaseMatrix).nrow -
      (clear_na_rows ⟨1, 1, [[some 1]], [⟨0, 0, [some 1]⟩]⟩).2 < 5) ∧
    ((init_cbm_from_pbm ⟨1, 1, [[some 1]], [⟨0, 0, [some 1]⟩]⟩ 5).k = 5 ∧
     (init_cbm_from_pbm ⟨1, 1, [[some 1]], [⟨0, 0, [some 1]⟩]⟩ 5).num_na =
       (clear_na_rows ⟨1, 1, [[some 1]], [⟨0, 0, [some 1]⟩]⟩).2 ∧
     ∀ i, i < 5 →
       (initCentroids (init_cbm_from_pbm ⟨1, 1, [[some 1]], [⟨0, 0, [some 1]⟩]⟩ 5)).getD i [] =
         rowQ ((init_cbm_from_pbm ⟨1, 1, [[some 1]], [⟨0, 0, [some 1]⟩]⟩ 5).pbm.matrix.getD
           (clear_na_rows ⟨1, 1, [[some 1]], [⟨0, 0, [some 1]⟩]⟩).2 [])) :=
  ⟨by decide, C7_no_validation ⟨1, 1, [[some 1]], [⟨0, 0, [some 1]⟩]⟩ 5 (by decide)⟩

/-- C4: centroid seeding is deterministic and stride-based: the loop at
cluster.c:161-166 gives cluster i the component-wise copy of the matrix
row at index num_na + i * ((n - num_na) / k) of the NA-filtered matrix. -/
theorem C4_seed_stride (cbm : ClusterBedMatrix) (i : Nat) (hi : i < cbm.k) :
    (initCentroids cbm).getD i [] =
      rowQ (cbm.pbm.matrix.getD (cbm.num_na + i * ((cbm.n - cbm.num_na) / cbm.k)) []) := by
  unfold initCentroids
  exact seedLoop_getD _ _ cbm.k cbm.num_na i hi

/-- C4 witness: on a concrete two-row state with k = 2, centroid 1 is a
copy of the row at index num_na + 1 * stride = 1. -/
theorem C4_seed_stride_witness :
    (1 < (init_cbm_from_pbm ⟨2, 1, [[some 3], [some 9]],
        [⟨0, 0, [some 3]⟩, ⟨1, 0, [some 9]⟩]⟩ 2).k) ∧
    (initCentroids (init_cbm_from_pbm ⟨2, 1, [[some 3], [some 9]],
        [⟨0, 0, [some 3]⟩, ⟨1, 0, [some 9]⟩]⟩ 2)).getD 1 [] =
      rowQ ((init_cbm_from_pbm ⟨2, 1, [[some 3], [some 9]],
        [⟨0, 0, [some 3]⟩, ⟨1, 0, [some 9]⟩]⟩ 2).pbm.matrix.getD
          ((init_cbm_from_pbm ⟨2, 1, [[some 3], [some 9]],
            [⟨0, 0, [some 3]⟩, ⟨1, 0, [some 9]⟩]⟩ 2).num_na +
            1 * (((init_cbm_from_pbm ⟨2, 1, [[some 3], [some 9]],
              [⟨0, 0, [some 3]⟩, ⟨1, 0, [some 9]⟩]⟩ 2).n -
              (init_cbm_from_pbm ⟨2, 1, [[some 3], [some 9]],
                [⟨0, 0, [some 3]⟩, ⟨1, 0, [some 9]⟩]⟩ 2).num_na) /
              (init_cbm_from_pbm ⟨2, 1, [[some 3], [some 9]],
                [⟨0, 0, [some 3]⟩, ⟨1, 0, [some 9]⟩]⟩ 2).k)) []) :=
  ⟨by decide, C4_seed_stride (init_cbm_from_pbm ⟨2, 1, [[some 3], [some 9]],
    [⟨0, 0, [some 3]⟩, ⟨1, 0, [some 9]⟩]⟩ 2) 1 (by decide)⟩

/-- C6 counterexample: on the matrix [[1],[1]] with k = 2 the seeded
centroids are [1] and [1]; the first iteration assigns both rows to
cluster 0 (ties prefer the lower index), so cluster 1 is empty, and the
update step at cluster.c:206 replaces its centroid [1] by the cleared
accumulator [0] - the centroid does not stay unchanged. -/
theorem C6_empty_cluster_counterexample :
    (kIter 2 1
      (initCentroids (init_cbm_from_pbm
        ⟨2, 1, [[some 1], [some 1]], [⟨0, 0, [some 1]⟩, ⟨1, 0, [some 1]⟩]⟩ 2))
      (activeRows (init_cbm_from_pbm
        ⟨2, 1, [[some 1], [some 1]], [⟨0, 0, [some 1]⟩, ⟨1, 0, [some 1]⟩]⟩ 2))).sizes.getD 1 0
      = 0 ∧
    (updateCentroids
      (kIter 2 1
        (initCentroids (init_cbm_from_pbm
          ⟨2, 1, [[some 1], [some 1]], [⟨0, 0, [some 1]⟩, ⟨1, 0, [some 1]⟩]⟩ 2))
        (activeRows (init_cbm_from_pbm
          ⟨2, 1, [[some 1], [some 1]], [⟨0, 0, [some 1]⟩, ⟨1, 0, [some 1]⟩]⟩ 2))).c1
      (kIter 2 1
        (initCentroids (init_cbm_from_pbm
          ⟨2, 1, [[some 1], [some 1]], [⟨0, 0, [some 1]⟩, ⟨1, 0, [some 1]⟩]⟩ 2))
        (activeRows (init_cbm_from_pbm
          ⟨2, 1, [[some 1], [some 1]], [⟨0, 0, [some 1]⟩, ⟨1, 0, [some 1]⟩]⟩ 2))).sizes).getD 1 []
      ≠
    (initCentroids (init_cbm_from_pbm
      ⟨2, 1, [[some 1], [some 1]], [⟨0, 0, [some 1]⟩, ⟨1, 0, [some 1]⟩]⟩ 2)).getD 1 [] := by
  constructor
  · norm_num [kIter, kIterStep, closest, closestAux, sqDist, dblMax, modifyIdx,
      initCentroids, seedLoop, activeRows, rowQ, init_cbm_from_pbm, clear_na_rows,
      markNA, hasNA, sortByLabel, List.insertionSort, List.orderedInsert, labelLe]
  · norm_num [kIter, kIterStep, closest, closestAux, sqDist, dblMax, modifyIdx,
      updateCentroids, initCentroids, seedLoop, activeRows, rowQ, init_cbm_from_pbm,
      clear_na_rows, markNA, hasNA, sortByLabel, List.insertionSort, List.orderedInsert, labelLe]

/-- C6 (amended): a cluster that receives zero rows in an iteration does
not keep its previous centroid; the update step stores the cleared
accumulator for it, i.e. the zero vector of dimension m. -/
theorem C6_empty_cluster_zeroed (k m : Nat) (cents active : List (List ℚ)) (i : Nat)
    (hlen : cents.length = k) (hk : 0 < k) (hi : i < k)
    (hz : (kIter k m cents active).sizes.getD i 0 = 0) :
    (updateCentroids (kIter k m cents active).c1 (kIter k m cents active).sizes).getD i [] =
      List.replicate m 0 := by
  have hne : cents ≠ [] := by
    intro h
    rw [h] at hlen
    simp at hlen
    omega
  have hc1 := kIter_c1_zero k m cents active hlen hne i hi hz
  rw [updateCentroids_getD _ _ i (by rw [kIter_c1_length]; omega)
    (by rw [kIter_sizes_length]; omega)]
  rw [if_neg (by simp only [hz]; simp)]
  exact hc1

/-- C6 witness for the amended theorem: with centroids [[2],[7]] and the
single active row [2], cluster 1 is empty and its new centroid is [0]. -/
theorem C6_empty_cluster_zeroed_witness :
    (([[2], [7]] : List (List ℚ)).length = 2 ∧ 0 < 2 ∧ 1 < 2 ∧
      (kIter 2 1 [[2], [7]] [[2]]).sizes.getD 1 0 = 0) ∧
    (updateCentroids (kIter 2 1 [[2], [7]] [[2]]).c1 (kIter 2 1 [[2], [7]] [[2]]).sizes).getD 1 []
      = List.replicate 1 0 :=
  ⟨⟨by decide, by decide, by decide,
      by norm_num [kIter, kIterStep, closest, closestAux, sqDist, dblMax, modifyIdx]⟩,
    C6_empty_cluster_zeroed 2 1 [[2], [7]] [[2]] 1 (by decide) (by decide) (by decide)
      (by norm_num [kIter, kIterStep, closest, closestAux, sqDist, dblMax, modifyIdx])⟩

/-- C5: within an iteration, the row at position p of the active range is
assigned the index of the centroid at minimal squared euclidean distance,
and on ties the lowest such index wins, because the scan only overwrites
its running minimum on a strictly smaller distance.  (The hypothesis rules
out the degenerate case in which every distance reaches the DBL_MAX
sentinel the running minimum starts from.) -/
theorem C5_closest_assignment (k m : Nat) (cents active : List (List ℚ)) (p : Nat)
    (hlen : cents.length = k) (hk : 0 < k) (hp : p < active.length)
    (hmin : ∃ c ∈ cents, sqDist (active.getD p []) c < dblMax) :
    (kIter k m cents active).labels.getD p 0 = (closest cents (active.getD p [])).1 ∧
    (closest cents (active.getD p [])).1 < k ∧
    (closest cents (active.getD p [])).2 =
      sqDist (active.getD p []) (cents.getD (closest cents (active.getD p [])).1 []) ∧
    (∀ c ∈ cents, (closest cents (active.getD p [])).2 ≤ sqDist (active.getD p []) c) ∧
    (∀ j, j < (closest cents (active.getD p [])).1 →
      (closest cents (active.getD p [])).2 < sqDist (active.getD p []) (cents.getD j [])) := by
  have hne : cents ≠ [] := by
    intro h
    rw [h] at hlen
    simp at hlen
    omega
  obtain ⟨hspec1, hspec2⟩ := closest_spec cents (active.getD p []) hmin
  refine ⟨?_, ?_, hspec1, closest_min cents (active.getD p []), hspec2⟩
  · rw [kIter_labels]
    have hb : p < (active.map (fun r => (closest cents r).1)).length := by simpa using hp
    rw [List.getD_eq_getElem _ _ hb, List.getElem_map]
    congr 1
    rw [List.getD_eq_getElem _ _ hp]
  · rw [← hlen]
    exact closest_fst_lt cents _ hne

/-- C5 witness: centroids [[0],[10]] and active rows [[1],[9]]; row 0 (the
vector [1]) is assigned centroid 0, at distance 1. -/
theorem C5_closest_assignment_witness :
    (([[0], [10]] : List (List ℚ)).length = 2 ∧ 0 < 2 ∧
      0 < ([[1], [9]] : List (List ℚ)).length ∧
      (∃ c ∈ ([[0], [10]] : List (List ℚ)),
        sqDist (([[1], [9]] : List (List ℚ)).getD 0 []) c < dblMax)) ∧
    ((kIter 2 1 [[0], [10]] [[1], [9]]).labels.getD 0 0 =
      (closest [[0], [10]] (([[1], [9]] : List (List ℚ)).getD 0 [])).1 ∧
     (closest [[0], [10]] (([[1], [9]] : List (List ℚ)).getD 0 [])).1 < 2 ∧
     (closest [[0], [10]] (([[1], [9]] : List (List ℚ)).getD 0 [])).2 =
       sqDist (([[1], [9]] : List (List ℚ)).getD 0 [])
         (([[0], [10]] : List (List ℚ)).getD
           (closest [[0], [10]] (([[1], [9]] : List (List ℚ)).getD 0 [])).1 []) ∧
     (∀ c ∈ ([[0], [10]] : List (List ℚ)),
       (closest [[0], [10]] (([[1], [9]] : List (List ℚ)).getD 0 [])).2 ≤
         sqDist (([[1], [9]] : List (List ℚ)).getD 0 []) c) ∧
     (∀ j, j < (closest [[0], [10]] (([[1], [9]] : List (List ℚ)).getD 0 [])).1 →
       (closest [[0], [10]] (([[1], [9]] : List (List ℚ)).getD 0 [])).2 <
         sqDist (([[1], [9]] : List (List ℚ)).getD 0 [])
           (([[0], [10]] : List (List ℚ)).getD j []))) :=
  ⟨⟨by decide, by decide, by decide,
      ⟨[0], by decide, by norm_num [sqDist, dblMax]⟩⟩,
    C5_closest_assignment 2 1 [[0], [10]] [[1], [9]] 0 (by decide) (by decide) (by decide)
      ⟨[0], by decide, by norm_num [sqDist, dblMax]⟩⟩

/-- C10: at the end of an iteration over the active rows, every row has
been counted in exactly one cluster, so the size counters sum to the
number of active rows (n - num_na), and the iteration's error is the sum
over the active rows of the scan's minimal distance, which bounds every
centroid's distance from below. -/
theorem C10_iteration_invariants (cbm : ClusterBedMatrix) (cents : List (List ℚ))
    (hlen : cents.length = cbm.k) (hk : 0 < cbm.k) :
    (kIter cbm.k cbm.m cents (activeRows cbm)).sizes.sum =
      cbm.pbm.matrix.length - cbm.num_na ∧
    (kIter cbm.k cbm.m cents (activeRows cbm)).error =
      ((activeRows cbm).map (fun r => (closest cents r).2)).sum ∧
    (∀ r ∈ activeRows cbm, ∀ c ∈ cents, (closest cents r).2 ≤ sqDist r c) := by
  have hne : cents ≠ [] := by
    intro h
    rw [h] at hlen
    simp at hlen
    omega
  refine ⟨?_, kIter_error _ _ _ _, fun r _ => closest_min cents r⟩
  rw [kIter_sizes_sum cbm.k cbm.m cents (activeRows cbm) hlen hne]
  simp [activeRows]

/-- C10 witness on a concrete two-row state with centroids [[2],[8]]. -/
theorem C10_iteration_invariants_witness :
    (([[2], [8]] : List (List ℚ)).length =
      (init_cbm_from_pbm ⟨2, 1, [[some 2], [some 8]],
        [⟨0, 0, [some 2]⟩, ⟨1, 0, [some 8]⟩]⟩ 2).k ∧
     0 < (init_cbm_from_pbm ⟨2, 1, [[some 2], [some 8]],
        [⟨0, 0, [some 2]⟩, ⟨1, 0, [some 8]⟩]⟩ 2).k) ∧
    ((kIter (init_cbm_from_pbm ⟨2, 1, [[some 2], [some 8]],
        [⟨0, 0, [some 2]⟩, ⟨1, 0, [some 8]⟩]⟩ 2).k
      (init_cbm_from_pbm ⟨2, 1, [[some 2], [some 8]],
        [⟨0, 0, [some 2]⟩, ⟨1, 0, [some 8]⟩]⟩ 2).m
      [[2], [8]]
      (activeRows (init_cbm_from_pbm ⟨2, 1, [[some 2], [some 8]],
        [⟨0, 0, [some 2]⟩, ⟨1, 0, [some 8]⟩]⟩ 2))).sizes.sum =
      (init_cbm_from_pbm ⟨2, 1, [[some 2], [some 8]],
        [⟨0, 0, [some 2]⟩, ⟨1, 0, [some 8]⟩]⟩ 2).pbm.matrix.length -
      (init_cbm_from_pbm ⟨2, 1, [[some 2], [some 8]],
        [⟨0, 0, [some 2]⟩, ⟨1, 0, [some 8]⟩]⟩ 2).num_na ∧
     (kIter (init_cbm_from_pbm ⟨2, 1, [[some 2], [some 8]],
        [⟨0, 0, [some 2]⟩, ⟨1, 0, [some 8]⟩]⟩ 2).k
      (init_cbm_from_pbm ⟨2, 1, [[some 2], [some 8]],
        [⟨0, 0, [some 2]⟩, ⟨1, 0, [some 8]⟩]⟩ 2).m
      [[2], [8]]
      (activeRows (init_cbm_from_pbm ⟨2, 1, [[some 2], [some 8]],
        [⟨0, 0, [some 2]⟩, ⟨1, 0, [some 8]⟩]⟩ 2))).error =
      ((activeRows (init_cbm_from_pbm ⟨2, 1, [[some 2], [some 8]],
        [⟨0, 0, [some 2]⟩, ⟨1, 0, [some 8]⟩]⟩ 2)).map
          (fun r => (closest [[2], [8]] r).2)).sum ∧
     (∀ r ∈ activeRows (init_cbm_from_pbm ⟨2, 1, [[some 2], [some 8]],
        [⟨0, 0, [some 2]⟩, ⟨1, 0, [some 8]⟩]⟩ 2),
       ∀ c ∈ ([[2], [8]] : List (List ℚ)), (closest [[2], [8]] r).2 ≤ sqDist r c)) :=
  ⟨⟨by decide, by decide⟩,
    C10_iteration_invariants (init_cbm_from_pbm ⟨2, 1, [[some 2], [some 8]],
      [⟨0, 0, [some 2]⟩, ⟨1, 0, [some 8]⟩]⟩ 2) [[2], [8]] (by decide) (by decide)⟩

/-- C3: whenever k_means returns, the do-while loop ran its body at least
one full time (out.iters is at least 1; the iteration-0 "previous error"
is the DBL_MAX sentinel), and it exited exactly at the first iteration
whose error differs from the previous iteration's error by at most t:
every earlier consecutive pair differs by more than t. -/
theorem C3_loop_exit (cbm : ClusterBedMatrix) (t : ℚ) (fuel : Nat)
    (out : KMeansOut) (h : k_means cbm t fuel = some out) :
    1 ≤ out.iters ∧
    |errAt cbm.k cbm.m (activeRows cbm) (initCentroids cbm) dblMax out.iters -
      errAt cbm.k cbm.m (activeRows cbm) (initCentroids cbm) dblMax (out.iters - 1)| ≤ t ∧
    (∀ i, 1 ≤ i → i < out.iters →
      t < |errAt cbm.k cbm.m (activeRows cbm) (initCentroids cbm) dblMax i -
        errAt cbm.k cbm.m (activeRows cbm) (initCentroids cbm) dblMax (i - 1)|) := by
  unfold k_means at h
  cases hkl : kLoop cbm.k cbm.m (activeRows cbm) t fuel (initCentroids cbm) dblMax with
  | none => simp [hkl] at h
  | some kout =>
      simp only [hkl, Option.some.injEq] at h
      obtain ⟨h1, _, h3, h4⟩ := kLoop_exit cbm.k cbm.m (activeRows cbm) t fuel
        (initCentroids cbm) dblMax kout hkl
      have hiters : out.iters = kout.iters := by rw [← h]
      rw [hiters]
      exact ⟨h1, h3, h4⟩

/-- C3 witness: on the two-row matrix [[0],[10]] with k = 2 and t = 1/1000
the loop stops after 2 iterations, and the conclusion of C3_loop_exit
holds at that run. -/
theorem C3_loop_exit_witness :
    k_means (init_cbm_from_pbm ⟨2, 1, [[some 0], [some 10]],
        [⟨0, 0, [some 0]⟩, ⟨1, 0, [some 10]⟩]⟩ 2) (1/1000) 3 =
      some ⟨[0, 1], [[0], [10]], [1, 1], 2⟩ ∧
    (1 ≤ (⟨[0, 1], [[0], [10]], [1, 1], 2⟩ : KMeansOut).iters ∧
     |errAt (init_cbm_from_pbm ⟨2, 1, [[some 0], [some 10]],
          [⟨0, 0, [some 0]⟩, ⟨1, 0, [some 10]⟩]⟩ 2).k
        (init_cbm_from_pbm ⟨2, 1, [[some 0], [some 10]],
          [⟨0, 0, [some 0]⟩, ⟨1, 0, [some 10]⟩]⟩ 2).m
        (activeRows (init_cbm_from_pbm ⟨2, 1, [[some 0], [some 10]],
          [⟨0, 0, [some 0]⟩, ⟨1, 0, [some 10]⟩]⟩ 2))
        (initCentroids (init_cbm_from_pbm ⟨2, 1, [[some 0], [some 10]],
          [⟨0, 0, [some 0]⟩, ⟨1, 0, [some 10]⟩]⟩ 2)) dblMax
        (⟨[0, 1], [[0], [10]], [1, 1], 2⟩ : KMeansOut).iters -
      errAt (init_cbm_from_pbm ⟨2, 1, [[some 0], [some 10]],
          [⟨0, 0, [some 0]⟩, ⟨1, 0, [some 10]⟩]⟩ 2).k
        (init_cbm_from_pbm ⟨2, 1, [[some 0], [some 10]],
          [⟨0, 0, [some 0]⟩, ⟨1, 0, [some 10]⟩]⟩ 2).m
        (activeRows (init_cbm_from_pbm ⟨2, 1, [[some 0], [some 10]],
          [⟨0, 0, [some 0]⟩, ⟨1, 0, [some 10]⟩]⟩ 2))
        (initCentroids (init_cbm_from_pbm ⟨2, 1, [[some 0], [some 10]],
          [⟨0, 0, [some 0]⟩, ⟨1, 0, [some 10]⟩]⟩ 2)) dblMax
        ((⟨[0, 1], [[0], [10]], [1, 1], 2⟩ : KMeansOut).iters - 1)| ≤ 1/1000 ∧
     (∀ i, 1 ≤ i → i < (⟨[0, 1], [[0], [10]], [1, 1], 2⟩ : KMeansOut).iters →
       1/1000 < |errAt (init_cbm_from_pbm ⟨2, 1, [[some 0], [some 10]],
            [⟨0, 0, [some 0]⟩, ⟨1, 0, [some 10]⟩]⟩ 2).k
          (init_cbm_from_pbm ⟨2, 1, [[some 0], [some 10]],
            [⟨0, 0, [some 0]⟩, ⟨1, 0, [some 10]⟩]⟩ 2).m
          (activeRows (init_cbm_from_pbm ⟨2, 1, [[some 0], [some 10]],
            [⟨0, 0, [some 0]⟩, ⟨1, 0, [some 10]⟩]⟩ 2))
          (initCentroids (init_cbm_from_pbm ⟨2, 1, [[some 0], [some 10]],
            [⟨0, 0, [some 0]⟩, ⟨1, 0, [some 10]⟩]⟩ 2)) dblMax i -
        errAt (init_cbm_from_pbm ⟨2, 1, [[some 0], [some 10]],
            [⟨0, 0, [some 0]⟩, ⟨1, 0, [some 10]⟩]⟩ 2).k
          (init_cbm_from_pbm ⟨2, 1, [[some 0], [some 10]],
            [⟨0, 0, [some 0]⟩, ⟨1, 0, [some 10]⟩]⟩ 2).m
          (activeRows (init_cbm_from_pbm ⟨2, 1, [[some 0], [some 10]],
            [⟨0, 0, [some 0]⟩, ⟨1, 0, [some 10]⟩]⟩ 2))
          (initCentroids (init_cbm_from_pbm ⟨2, 1, [[some 0], [some 10]],
            [⟨0, 0, [some 0]⟩, ⟨1, 0, [some 10]⟩]⟩ 2)) dblMax (i - 1)|)) :=
  ⟨by norm_num [k_means, kLoop, kIter, kIterStep, closest, closestAux, sqDist, dblMax,
      modifyIdx, updateCentroids, initCentroids, seedLoop, activeRows, rowQ,
      init_cbm_from_pbm, clear_na_rows, markNA, hasNA, sortByLabel,
      List.insertionSort, List.orderedInsert, labelLe],
    C3_loop_exit (init_cbm_from_pbm ⟨2, 1, [[some 0], [some 10]],
        [⟨0, 0, [some 0]⟩, ⟨1, 0, [some 10]⟩]⟩ 2) (1/1000) 3
      ⟨[0, 1], [[0], [10]], [1, 1], 2⟩
      (by norm_num [k_means, kLoop, kIter, kIterStep, closest, closestAux, sqDist, dblMax,
        modifyIdx, updateCentroids, initCentroids, seedLoop, activeRows, rowQ,
        init_cbm_from_pbm, clear_na_rows, markNA, hasNA, sortByLabel,
        List.insertionSort, List.orderedInsert, labelLe])⟩

/-- C1: after do_kmeans completes on a state built by init_cbm_from_pbm
from a freshly loaded matrix (labels zero-initialized by AllocVar) with
k at least 1, every active row - every index in [num_excluded, n) - has a
label in [0, k), and every excluded row (one containing a NaN) has label
exactly -1. -/
theorem C1_labels_after_clustering (pbm : PerBaseMatrix) (k : Nat) (t : ℚ) (fuel : Nat)
    (cbm' : ClusterBedMatrix)
    (h0 : ∀ w ∈ pbm.array, w.label = 0) (hn : pbm.nrow = pbm.array.length) (hk : 0 < k)
    (hrun : do_kmeans (init_cbm_from_pbm pbm k) t fuel = some cbm') :
    (∀ i, cbm'.num_na ≤ i → i < cbm'.n →
      0 ≤ (cbm'.pbm.array.getD i wdef).label ∧
      (cbm'.pbm.array.getD i wdef).label < (k : Int)) ∧
    (∀ w ∈ cbm'.pbm.array, hasNA w.data = true → w.label = -1) := by
  obtain ⟨hna, hkk, hnn, hlen, hmat, hsort, hmem, hpos⟩ :=
    do_kmeans_spec pbm k t fuel cbm' h0 hk hrun
  constructor
  · intro i hci hin
    have hi : i < cbm'.pbm.array.length := by omega
    have hw : cbm'.pbm.array.getD i wdef ∈ cbm'.pbm.array := by
      rw [List.getD_eq_getElem _ wdef hi]
      exact List.getElem_mem hi
    have hnotneg : ¬((cbm'.pbm.array.getD i wdef).label = -1) := by
      rw [hpos i hi]
      omega
    rcases (hmem _ hw).1 with h | h
    · exact absurd h hnotneg
    · exact h
  · intro w hw hwna
    exact (hmem w hw).2.mpr hwna

/-- C1 witness: the two-row matrix with one NaN row, k = 1. -/
theorem C1_labels_after_clustering_witness :
    ((∀ w ∈ (⟨2, 1, [[none], [some 0]],
        [⟨0, 0, [none]⟩, ⟨1, 0, [some 0]⟩]⟩ : PerBaseMatrix).array, w.label = 0) ∧
     (⟨2, 1, [[none], [some 0]],
        [⟨0, 0, [none]⟩, ⟨1, 0, [some 0]⟩]⟩ : PerBaseMatrix).nrow =
       (⟨2, 1, [[none], [some 0]],
        [⟨0, 0, [none]⟩, ⟨1, 0, [some 0]⟩]⟩ : PerBaseMatrix).array.length ∧
     0 < 1 ∧
     do_kmeans (init_cbm_from_pbm ⟨2, 1, [[none], [some 0]],
        [⟨0, 0, [none]⟩, ⟨1, 0, [some 0]⟩]⟩ 1) (1/1000) 3 =
       some ⟨⟨2, 1, [[none], [some 0]], [⟨0, -1, [none]⟩, ⟨1, 0, [some 0]⟩]⟩,
         1, 2, 1, 1, [[0]], [1]⟩) ∧
    ((∀ i, (⟨⟨2, 1, [[none], [some 0]], [⟨0, -1, [none]⟩, ⟨1, 0, [some 0]⟩]⟩,
         1, 2, 1, 1, [[0]], [1]⟩ : ClusterBedMatrix).num_na ≤ i →
       i < (⟨⟨2, 1, [[none], [some 0]], [⟨0, -1, [none]⟩, ⟨1, 0, [some 0]⟩]⟩,
         1, 2, 1, 1, [[0]], [1]⟩ : ClusterBedMatrix).n →
       0 ≤ ((⟨⟨2, 1, [[none], [some 0]], [⟨0, -1, [none]⟩, ⟨1, 0, [some 0]⟩]⟩,
         1, 2, 1, 1, [[0]], [1]⟩ : ClusterBedMatrix).pbm.array.getD i wdef).label ∧
       ((⟨⟨2, 1, [[none], [some 0]], [⟨0, -1, [none]⟩, ⟨1, 0, [some 0]⟩]⟩,
         1, 2, 1, 1, [[0]], [1]⟩ : ClusterBedMatrix).pbm.array.getD i wdef).label <
         ((1 : Nat) : Int)) ∧
     (∀ w ∈ (⟨⟨2, 1, [[none], [some 0]], [⟨0, -1, [none]⟩, ⟨1, 0, [some 0]⟩]⟩,
         1, 2, 1, 1, [[0]], [1]⟩ : ClusterBedMatrix).pbm.array,
       hasNA w.data = true → w.label = -1)) :=
  ⟨⟨by decide, by decide, by decide,
      by norm_num [do_kmeans, k_means, kLoop, kIter, kIterStep, closest, closestAux,
        sqDist, dblMax, modifyIdx, updateCentroids, initCentroids, seedLoop, activeRows,
        rowQ, init_cbm_from_pbm, clear_na_rows, markNA, hasNA, sortByLabel,
        List.insertionSort, List.orderedInsert, labelLe, applyLabels, applyLabelsAux, wdef]⟩,
    C1_labels_after_clustering ⟨2, 1, [[none], [some 0]],
        [⟨0, 0, [none]⟩, ⟨1, 0, [some 0]⟩]⟩ 1 (1/1000) 3
      ⟨⟨2, 1, [[none], [some 0]], [⟨0, -1, [none]⟩, ⟨1, 0, [some 0]⟩]⟩,
         1, 2, 1, 1, [[0]], [1]⟩
      (by decide) (by decide) (by decide)
      (by norm_num [do_kmeans, k_means, kLoop, kIter, kIterStep, closest, closestAux,
        sqDist, dblMax, modifyIdx, updateCentroids, initCentroids, seedLoop, activeRows,
        rowQ, init_cbm_from_pbm, clear_na_rows, markNA, hasNA, sortByLabel,
        List.insertionSort, List.orderedInsert, labelLe, applyLabels, applyLabelsAux, wdef])⟩

/-- C2: after do_kmeans, labels are non-decreasing along the row index (so
all -1 rows precede all rows labeled 0 or more), and the row-pointer array
agrees with the descriptor array: matrix[i] is descriptors[i]'s data. -/
theorem C2_order_and_sync (pbm : PerBaseMatrix) (k : Nat) (t : ℚ) (fuel : Nat)
    (cbm' : ClusterBedMatrix)
    (h0 : ∀ w ∈ pbm.array, w.label = 0) (hk : 0 < k)
    (hrun : do_kmeans (init_cbm_from_pbm pbm k) t fuel = some cbm') :
    (∀ i j, i ≤ j → j < cbm'.pbm.array.length →
      (cbm'.pbm.array.getD i wdef).label ≤ (cbm'.pbm.array.getD j wdef).label) ∧
    (∀ i j, i ≤ j → j < cbm'.pbm.array.length →
      (cbm'.pbm.array.getD j wdef).label = -1 →
      (cbm'.pbm.array.getD i wdef).label = -1) ∧
    cbm'.pbm.matrix = cbm'.pbm.array.map (fun w => w.data) := by
  obtain ⟨hna, hkk, hnn, hlen, hmat, hsort, hmem, hpos⟩ :=
    do_kmeans_spec pbm k t fuel cbm' h0 hk hrun
  have hmono : ∀ i j, i ≤ j → j < cbm'.pbm.array.length →
      (cbm'.pbm.array.getD i wdef).label ≤ (cbm'.pbm.array.getD j wdef).label := by
    intro i j hij hj
    rcases Nat.lt_or_ge i j with hlt | hge
    · have hi : i < cbm'.pbm.array.length := by omega
      rw [List.getD_eq_getElem _ wdef hi, List.getD_eq_getElem _ wdef hj]
      exact List.pairwise_iff_getElem.mp hsort i j hi hj hlt
    · have hij' : i = j := by omega
      rw [hij']
  refine ⟨hmono, ?_, hmat⟩
  intro i j hij hj hneg
  have hi : i < cbm'.pbm.array.length := by omega
  have h1 := hmono i j hij hj
  rw [hneg] at h1
  have hw : cbm'.pbm.array.getD i wdef ∈ cbm'.pbm.array := by
    rw [List.getD_eq_getElem _ wdef hi]
    exact List.getElem_mem hi
  rcases (hmem _ hw).1 with h | h
  · exact h
  · omega

/-- C2 witness: a three-row matrix with one NaN row, k = 2; the final
order is the NaN row first, then labels 0 and 1, with matrix mirroring
the descriptors. -/
theorem C2_order_and_sync_witness :
    ((∀ w ∈ (⟨3, 1, [[some 5], [none], [some 0]],
        [⟨0, 0, [some 5]⟩, ⟨1, 0, [none]⟩, ⟨2, 0, [some 0]⟩]⟩ : PerBaseMatrix).array,
        w.label = 0) ∧
     0 < 2 ∧
     do_kmeans (init_cbm_from_pbm ⟨3, 1, [[some 5], [none], [some 0]],
        [⟨0, 0, [some 5]⟩, ⟨1, 0, [none]⟩, ⟨2, 0, [some 0]⟩]⟩ 2) (1/1000) 4 =
       some ⟨⟨3, 1, [[none], [some 5], [some 0]],
         [⟨1, -1, [none]⟩, ⟨0, 0, [some 5]⟩, ⟨2, 1, [some 0]⟩]⟩,
         1, 3, 2, 1, [[5], [0]], [1, 1]⟩) ∧
    ((∀ i j, i ≤ j → j < (⟨⟨3, 1, [[none], [some 5], [some 0]],
         [⟨1, -1, [none]⟩, ⟨0, 0, [some 5]⟩, ⟨2, 1, [some 0]⟩]⟩,
         1, 3, 2, 1, [[5], [0]], [1, 1]⟩ : ClusterBedMatrix).pbm.array.length →
       ((⟨⟨3, 1, [[none], [some 5], [some 0]],
         [⟨1, -1, [none]⟩, ⟨0, 0, [some 5]⟩, ⟨2, 1, [some 0]⟩]⟩,
         1, 3, 2, 1, [[5], [0]], [1, 1]⟩ : ClusterBedMatrix).pbm.array.getD i wdef).label ≤
       ((⟨⟨3, 1, [[none], [some 5], [some 0]],
         [⟨1, -1, [none]⟩, ⟨0, 0, [some 5]⟩, ⟨2, 1, [some 0]⟩]⟩,
         1, 3, 2, 1, [[5], [0]], [1, 1]⟩ : ClusterBedMatrix).pbm.array.getD j wdef).label) ∧
     (∀ i j, i ≤ j → j < (⟨⟨3, 1, [[none], [some 5], [some 0]],
         [⟨1, -1, [none]⟩, ⟨0, 0, [some 5]⟩, ⟨2, 1, [some 0]⟩]⟩,
         1, 3, 2, 1, [[5], [0]], [1, 1]⟩ : ClusterBedMatrix).pbm.array.length →
       ((⟨⟨3, 1, [[none], [some 5], [some 0]],
         [⟨1, -1, [none]⟩, ⟨0, 0, [some 5]⟩, ⟨2, 1, [some 0]⟩]⟩,
         1, 3, 2, 1, [[5], [0]], [1, 1]⟩ : ClusterBedMatrix).pbm.array.getD j wdef).label = -1 →
       ((⟨⟨3, 1, [[none], [some 5], [some 0]],
         [⟨1, -1, [none]⟩, ⟨0, 0, [some 5]⟩, ⟨2, 1, [some 0]⟩]⟩,
         1, 3, 2, 1, [[5], [0]], [1, 1]⟩ : ClusterBedMatrix).pbm.array.getD i wdef).label = -1) ∧
     (⟨⟨3, 1, [[none], [some 5], [some 0]],
         [⟨1, -1, [none]⟩, ⟨0, 0, [some 5]⟩, ⟨2, 1, [some 0]⟩]⟩,
         1, 3, 2, 1, [[5], [0]], [1, 1]⟩ : ClusterBedMatrix).pbm.matrix =
       (⟨⟨3, 1, [[none], [some 5], [some 0]],
         [⟨1, -1, [none]⟩, ⟨0, 0, [some 5]⟩, ⟨2, 1, [some 0]⟩]⟩,
         1, 3, 2, 1, [[5], [0]], [1, 1]⟩ : ClusterBedMatrix).pbm.array.map
           (fun w => w.data)) :=
  ⟨⟨by decide, by decide,
      by norm_num [do_kmeans, k_means, kLoop, kIter, kIterStep, closest, closestAux,
        sqDist, dblMax, modifyIdx, updateCentroids, initCentroids, seedLoop, activeRows,
        rowQ, init_cbm_from_pbm, clear_na_rows, markNA, hasNA, sortByLabel,
        List.insertionSort, List.orderedInsert, labelLe, applyLabels, applyLabelsAux, wdef]⟩,
    C2_order_and_sync ⟨3, 1, [[some 5], [none], [some 0]],
        [⟨0, 0, [some 5]⟩, ⟨1, 0, [none]⟩, ⟨2, 0, [some 0]⟩]⟩ 2 (1/1000) 4
      ⟨⟨3, 1, [[none], [some 5], [some 0]],
         [⟨1, -1, [none]⟩, ⟨0, 0, [some 5]⟩, ⟨2, 1, [some 0]⟩]⟩,
         1, 3, 2, 1, [[5], [0]], [1, 1]⟩
      (by decide) (by decide)
      (by norm_num [do_kmeans, k_means, kLoop, kIter, kIterStep, closest, closestAux,
        sqDist, dblMax, modifyIdx, updateCentroids, initCentroids, seedLoop, activeRows,
        rowQ, init_cbm_from_pbm, clear_na_rows, markNA, hasNA, sortByLabel,
        List.insertionSort, List.orderedInsert, labelLe, applyLabels, applyLabelsAux, wdef])⟩

/-- C8: the final reorder of do_kmeans sorts the (descriptor, row-pointer)
pairs in ascending label order with a stable sort keyed solely on the
label: the result is label-sorted, is a permutation of the labeled array,
and for every label value the subsequence of rows carrying it is preserved
exactly.  (The comparator perBaseWigLabelCmp lives outside src/; per the
spec it is keyed solely on label and the sort must be stable, which is how
sortByLabel models the qsort call.) -/
theorem C8_stable_label_sort (cbm : ClusterBedMatrix) (t : ℚ) (fuel : Nat)
    (out : KMeansOut) (h : k_means cbm t fuel = some out) :
    ∃ cbm', do_kmeans cbm t fuel = some cbm' ∧
      cbm'.pbm.array = sortByLabel (applyLabels cbm.num_na out.labels cbm.pbm.array) ∧
      cbm'.pbm.array.Pairwise labelLe ∧
      cbm'.pbm.array.Perm (applyLabels cbm.num_na out.labels cbm.pbm.array) ∧
      (∀ v : Int, cbm'.pbm.array.filter (fun w => w.label == v) =
        (applyLabels cbm.num_na out.labels cbm.pbm.array).filter (fun w => w.label == v)) := by
  unfold do_kmeans
  rw [h]
  exact ⟨_, rfl, rfl, sortByLabel_sorted _, sortByLabel_perm _,
    fun v => sortByLabel_stable v _⟩

/-- C8 witness: a two-row tie (both rows equal, k = 1): both get label 0
and the stable sort keeps their original relative order. -/
theorem C8_stable_label_sort_witness :
    k_means (init_cbm_from_pbm ⟨2, 1, [[some 4], [some 4]],
        [⟨0, 0, [some 4]⟩, ⟨1, 0, [some 4]⟩]⟩ 1) (1/1000) 3 =
      some ⟨[0, 0], [[4]], [2], 2⟩ ∧
    (∃ cbm', do_kmeans (init_cbm_from_pbm ⟨2, 1, [[some 4], [some 4]],
        [⟨0, 0, [some 4]⟩, ⟨1, 0, [some 4]⟩]⟩ 1) (1/1000) 3 = some cbm' ∧
      cbm'.pbm.array = sortByLabel (applyLabels
        (init_cbm_from_pbm ⟨2, 1, [[some 4], [some 4]],
          [⟨0, 0, [some 4]⟩, ⟨1, 0, [some 4]⟩]⟩ 1).num_na
        (⟨[0, 0], [[4]], [2], 2⟩ : KMeansOut).labels
        (init_cbm_from_pbm ⟨2, 1, [[some 4], [some 4]],
          [⟨0, 0, [some 4]⟩, ⟨1, 0, [some 4]⟩]⟩ 1).pbm.array) ∧
      cbm'.pbm.array.Pairwise labelLe ∧
      cbm'.pbm.array.Perm (applyLabels
        (init_cbm_from_pbm ⟨2, 1, [[some 4], [some 4]],
          [⟨0, 0, [some 4]⟩, ⟨1, 0, [some 4]⟩]⟩ 1).num_na
        (⟨[0, 0], [[4]], [2], 2⟩ : KMeansOut).labels
        (init_cbm_from_pbm ⟨2, 1, [[some 4], [some 4]],
          [⟨0, 0, [some 4]⟩, ⟨1, 0, [some 4]⟩]⟩ 1).pbm.array) ∧
      (∀ v : Int, cbm'.pbm.array.filter (fun w => w.label == v) =
        (applyLabels
          (init_cbm_from_pbm ⟨2, 1, [[some 4], [some 4]],
            [⟨0, 0, [some 4]⟩, ⟨1, 0, [some 4]⟩]⟩ 1).num_na
          (⟨[0, 0], [[4]], [2], 2⟩ : KMeansOut).labels
          (init_cbm_from_pbm ⟨2, 1, [[some 4], [some 4]],
            [⟨0, 0, [some 4]⟩, ⟨1, 0, [some 4]⟩]⟩ 1).pbm.array).filter
              (fun w => w.label == v))) :=
  ⟨by norm_num [k_means, kLoop, kIter, kIterStep, closest, closestAux, sqDist, dblMax,
      modifyIdx, updateCentroids, initCentroids, seedLoop, activeRows, rowQ,
      init_cbm_from_pbm, clear_na_rows, markNA, hasNA, sortByLabel,
      List.insertionSort, List.orderedInsert, labelLe],
    C8_stable_label_sort (init_cbm_from_pbm ⟨2, 1, [[some 4], [some 4]],
        [⟨0, 0, [some 4]⟩, ⟨1, 0, [some 4]⟩]⟩ 1) (1/1000) 3
      ⟨[0, 0], [[4]], [2], 2⟩
      (by norm_num [k_means, kLoop, kIter, kIterStep, closest, closestAux, sqDist, dblMax,
        modifyIdx, updateCentroids, initCentroids, seedLoop, activeRows, rowQ,
        init_cbm_from_pbm, clear_na_rows, markNA, hasNA, sortByLabel,
        List.insertionSort, List.orderedInsert, labelLe])⟩
